import Mathlib

/-!
# unlinker: a shallow embedding of `main.go`

A verification development for the file-retention sweeper `unlinker`.

Modelling conventions.

* A Go `string` is a finite sequence of bytes; it is embedded as `List Char`, one list
  element per byte.  `len(s)` is `List.length`, `s[i:j]` is `drop`/`take`.
* `log.Fatal`/`log.Fatalf` and run-time panics end the process; a function that can reach
  one of them returns `Except Abort _`, with one constructor of `Abort` per abort site.
* Go `int` and `time.Duration` are 64-bit; the `Duration` product of the source is
  computed modulo `2^64` (`wrapInt64`).
* A `time.Time` is embedded as the integer number of nanoseconds on an unbounded time
  line; `Time.Add` is addition.
* The operating system and the `time` parsers are the fields of `Env`.
* For `run`, the swept files are a list of paths with modification times (`World`); the
  directory of configurations, the glob matcher, the outcome of `os.Remove` and the `time`
  parsers are the fields of `System`, and `envOf` builds the `Env` of a state.
-/

namespace Unlinker

/-- A Go string, as the list of its bytes. -/
abbrev GoString := List Char

/-- Ways in which the process ends without returning. -/
inductive Abort where
  /-- The `log.Fatalf("Path(%v) doesn't match to path pattern:%v", s, p)` of `globMatchPart`. -/
  | fatalMismatch (s p : GoString)
  /-- The `log.Fatal("Path in configuration must have a glob(*), but not:" + ...)`. -/
  | fatalNoGlob (pathPattern : GoString)
  /-- The `log.Fatal("Path in configuration must have just one glob(*), but more:" + ...)`. -/
  | fatalManyGlob (pathPattern : GoString)
  /-- The `log.Fatal(err)` after `filepath.Glob`. -/
  | fatalGlobError
  /-- The `log.Fatal("Unknown rule:" + c.Rule)`. -/
  | fatalUnknownRule (rule : GoString)
  /-- The `log.Fatal(err)` of `readConfigList`. -/
  | fatalReadConfig
  /-- Run-time panic: index out of range. -/
  | panicIndex
  /-- Run-time panic: slice bounds out of range. -/
  | panicSlice
  deriving DecidableEq, Repr

deriving instance DecidableEq for Except

/-! ## The `strings` functions used by the source -/

/-- The function `strings.HasPrefix(s, pre)`. -/
def HasPrefix (s pre : GoString) : Bool := pre.isPrefixOf s

/-- The function `strings.HasSuffix(s, suf)`. -/
def HasSuffix (s suf : GoString) : Bool := suf.isSuffixOf s

/-- Scan for the first occurrence of `sub` in the rest `s` of a string, `i` bytes in. -/
def indexAux (sub : GoString) : GoString → Nat → Int
  | [], i => if sub = [] then (i : Int) else -1
  | c :: s, i => if sub.isPrefixOf (c :: s) then (i : Int) else indexAux sub s (i + 1)

/-- The function `strings.Index(s, sub)`: the index of the first occurrence of `sub` in `s`,
or `-1`. -/
def Index (s sub : GoString) : Int := indexAux sub s 0

/-- Scan for the last occurrence of `sub` in the rest `s` of a string, `i` bytes in, `acc`
being the last occurrence seen so far. -/
def lastIndexAux (sub : GoString) : GoString → Nat → Int → Int
  | [], i, acc => if sub = [] then (i : Int) else acc
  | c :: s, i, acc => lastIndexAux sub s (i + 1) (if sub.isPrefixOf (c :: s) then (i : Int) else acc)

/-- The function `strings.LastIndex(s, sub)`: the index of the last occurrence of `sub` in
`s`, or `-1`. -/
def LastIndex (s sub : GoString) : Int := lastIndexAux sub s 0 (-1)

/-- The call `strings.SplitN(s, sep, 2)`: cut `s` at the first occurrence of `sep`; a
one-element slice when `sep` does not occur. -/
def SplitN2 (s sep : GoString) : List GoString :=
  let m := Index s sep
  if m < 0 then [s] else [s.take m.toNat, s.drop (m.toNat + sep.length)]

/-- Worker of `replaceAll`: `skip` is the number of bytes of the current occurrence of `old`
that are still to be passed over. -/
def replaceAux (old new : GoString) : Nat → GoString → GoString
  | _, [] => []
  | skip + 1, _ :: s => replaceAux old new skip s
  | 0, c :: s =>
    if old.isPrefixOf (c :: s) then new ++ replaceAux old new (old.length - 1) s
    else c :: replaceAux old new 0 s

/-- The call `strings.Replace(s, old, new, -1)`: every non-overlapping occurrence of `old`,
taken from the left, is replaced by `new`.  (For an empty `old`, `new` is inserted at the
start and after every byte.) -/
def replaceAll (s old new : GoString) : GoString :=
  if old = [] then new ++ s.flatMap (fun c => c :: new) else replaceAux old new 0 s

/-- Indexing `parts[i]` of a slice, with the run-time bounds check. -/
def indexSlice (parts : List GoString) (i : Nat) : Except Abort GoString :=
  match parts.get? i with
  | some x => .ok x
  | none => .error .panicIndex

/-- The slice expression `s[lo:hi]`, with the run-time bounds check. -/
def sliceString (s : GoString) (lo hi : Int) : Except Abort GoString :=
  if 0 ≤ lo ∧ lo ≤ hi ∧ hi ≤ (s.length : Int) then .ok ((s.take hi.toNat).drop lo.toNat)
  else .error .panicSlice

/-! ## `globMatchPart` -/

/-- The function `globMatchPart` of `main.go`. -/
def globMatchPart (s p : GoString) : Except Abort GoString :=
  let parts := SplitN2 p ['*']
  match indexSlice parts 0 with
  | .error e => .error e
  | .ok part0 =>
    let prefixLength : Int := part0.length
    match indexSlice parts 1 with
    | .error e => .error e
    | .ok part1 =>
      let suffixLength : Int := part1.length
      if !(HasPrefix s part0) || !(HasSuffix s part1) then .error (.fatalMismatch s p)
      else sliceString s prefixLength ((s.length : Int) - suffixLength)

/-! ## `strconv.Atoi` -/

/-- Value of a run of ASCII decimal digits, `acc` being the value read so far; `none` when a
byte is not a digit. -/
def parseDigits : GoString → Nat → Option Nat
  | [], acc => some acc
  | c :: s, acc =>
    if 48 ≤ c.toNat ∧ c.toNat ≤ 57 then parseDigits s (acc * 10 + (c.toNat - 48)) else none

/-- The function `strconv.Atoi` for a 64-bit `int`: an optional sign, then one or more
decimal digits, the value lying in the `int` range; `none` stands for a non-nil error. -/
def Atoi (s : GoString) : Option Int :=
  match s with
  | [] => none
  | c :: t =>
    let neg := c = '-'
    let body := if c = '-' ∨ c = '+' then t else s
    match body with
    | [] => none
    | _ :: _ =>
      match parseDigits body 0 with
      | none => none
      | some n =>
        let v : Int := if neg then -(n : Int) else (n : Int)
        if -(2 : Int) ^ 63 ≤ v ∧ v < (2 : Int) ^ 63 then some v else none

/-! ## `convertTimestampFormat` -/

/-- The table `timeFormatMapping` of `convertTimestampFormat`. -/
def timeFormatMapping : List (GoString × GoString) :=
  [ ("%d".toList, "02".toList),
    ("%b".toList, "Jan".toList),
    ("%m".toList, "01".toList),
    ("%y".toList, "06".toList),
    ("%Y".toList, "2006".toList),
    ("%H".toList, "15".toList),
    ("%M".toList, "04".toList),
    ("%S".toList, "05".toList),
    ("%z".toList, "-0700".toList),
    ("%Z".toList, "MST".toList),
    ("%%".toList, "%".toList) ]

/-- The function `convertTimestampFormat` of `main.go`. -/
def convertTimestampFormat (format : GoString) : GoString × Bool :=
  let containsTimezone : Bool :=
    if Index format "%z".toList > 0 ∨ Index format "%Z".toList > 0 then true else false
  let result := timeFormatMapping.foldl (fun result pair => replaceAll result pair.1 pair.2) format
  (result, containsTimezone)

/-! ## Time -/

/-- A `time.Time`: nanoseconds on an unbounded time line. -/
abbrev Time := Int

/-- A `time.Duration`: a signed 64-bit count of nanoseconds. -/
abbrev Duration := Int

/-- Reduction of an integer to the signed 64-bit value with the same residue modulo `2^64`. -/
def wrapInt64 (x : Int) : Int := (x + 2 ^ 63) % 2 ^ 64 - 2 ^ 63

/-- The constant `time.Second`. -/
def Second : Duration := 1000000000

/-- Product of two `int64` values. -/
def mulInt64 (a b : Int) : Int := wrapInt64 (a * b)

/-- The expression `now.Add(time.Duration(expireSec) * time.Second * -1)`. -/
def expiredAt (now : Time) (expireSec : Int) : Time :=
  now + mulInt64 (mulInt64 expireSec Second) (-1)

/-- The test `t.Before(expired) || t.Equal(expired)`. -/
def beforeOrEqual (t expired : Time) : Bool := decide (t < expired) || decide (t = expired)

/-- What the program reads from outside: the file system and the `time` parsers. -/
structure Env where
  /-- The call `filepath.Glob(pattern)`; `none` is a non-nil error. -/
  glob : GoString → Option (List GoString)
  /-- The call `os.Stat(path)` followed by `ModTime()`; `none` is a non-nil error. -/
  stat : GoString → Option Time
  /-- The call `time.Parse(layout, value)`; `none` is a non-nil error. -/
  parse : GoString → GoString → Option Time
  /-- The call `time.ParseInLocation(layout, value, time.Local)`; `none` is a non-nil error. -/
  parseInLocation : GoString → GoString → Option Time

/-! ## The three rules -/

/-- Body of the loop of `findTargetsWithAge`. -/
def ageStep (pathPattern : GoString) (age : Int) (targets : List GoString) (p : GoString) :
    Except Abort (List GoString) :=
  match globMatchPart p pathPattern with
  | .error e => .error e
  | .ok part =>
    match Atoi part with
    | some i => if i ≥ age then .ok (targets ++ [p]) else .ok targets
    | none => .ok targets

/-- The function `findTargetsWithAge` of `main.go`. -/
def findTargetsWithAge (pathPattern : GoString) (paths : List GoString) (age : Int) :
    Except Abort (List GoString) :=
  paths.foldlM (ageStep pathPattern age) []

/-- Body of the loop of `findTargetsWithTimestamp`. -/
def timestampStep (env : Env) (pathPattern format : GoString) (containsTimezone : Bool)
    (expired : Time) (targets : List GoString) (p : GoString) : Except Abort (List GoString) :=
  match globMatchPart p pathPattern with
  | .error e => .error e
  | .ok part =>
    let parsed := if containsTimezone then env.parse format part
      else env.parseInLocation format part
    match parsed with
    | none => .ok targets
    | some t => if beforeOrEqual t expired then .ok (targets ++ [p]) else .ok targets

/-- The function `findTargetsWithTimestamp` of `main.go`. -/
def findTargetsWithTimestamp (env : Env) (now : Time) (pathPattern : GoString)
    (paths : List GoString) (strptimeFormat : GoString) (expireSec : Int) :
    Except Abort (List GoString) :=
  let fc := convertTimestampFormat strptimeFormat
  let expired := expiredAt now expireSec
  paths.foldlM (timestampStep env pathPattern fc.1 fc.2 expired) []

/-- Body of the loop of `findTargetsWithMtime`. -/
def mtimeStep (env : Env) (expired : Time) (targets : List GoString) (p : GoString) :
    List GoString :=
  match env.stat p with
  | some t => if beforeOrEqual t expired then targets ++ [p] else targets
  | none => targets

/-- The function `findTargetsWithMtime` of `main.go`. -/
def findTargetsWithMtime (env : Env) (now : Time) (paths : List GoString) (expireSec : Int) :
    List GoString :=
  let expired := expiredAt now expireSec
  paths.foldl (mtimeStep env expired) []

/-! ## `findTargets` -/

/-- The struct `config` of `main.go`. -/
structure Config where
  Rule : GoString
  PathPattern : GoString
  Age : Int
  Format : GoString
  ExpireSec : Int
  deriving DecidableEq, Repr

/-- The two wildcard checks at the head of `findTargets`. -/
def checkWildcard (pathPattern : GoString) : Except Abort Unit :=
  if Index pathPattern ['*'] = -1 then .error (.fatalNoGlob pathPattern)
  else if Index pathPattern ['*'] ≠ LastIndex pathPattern ['*'] then
    .error (.fatalManyGlob pathPattern)
  else .ok ()

/-- The `switch c.Rule` of `findTargets`, on the expanded `paths`. -/
def dispatchRule (env : Env) (c : Config) (now : Time) (paths : List GoString) :
    Except Abort (List GoString) :=
  if c.Rule = "age".toList then findTargetsWithAge c.PathPattern paths c.Age
  else if c.Rule = "timestamp".toList then
    findTargetsWithTimestamp env now c.PathPattern paths c.Format c.ExpireSec
  else if c.Rule = "mtime".toList then .ok (findTargetsWithMtime env now paths c.ExpireSec)
  else .error (.fatalUnknownRule c.Rule)

/-- The function `findTargets` of `main.go`. -/
def findTargets (env : Env) (c : Config) (now : Time) : Except Abort (List GoString) :=
  match checkWildcard c.PathPattern with
  | .error e => .error e
  | .ok () =>
    match env.glob c.PathPattern with
    | none => .error .fatalGlobError
    | some paths => dispatchRule env c now paths

/-! ## Formats as token lists -/

/-- The ten letters of the directives other than `%%`, in the order of the table. -/
def directiveLetters : List Char := "dbmyYHMSzZ".toList

/-- A token of a format string: a single byte other than `%`, or a directive `%c`. -/
inductive Token where
  | lit (c : Char)
  | directive (c : Char)
  deriving DecidableEq, Repr

/-- A token is well formed: a literal byte is not `%`, a directive is one of the eleven
supported ones. -/
def Token.valid : Token → Bool
  | .lit c => c ≠ '%'
  | .directive c => c ∈ directiveLetters ∨ c = '%'

/-- The text of a token in the format string. -/
def Token.source : Token → GoString
  | .lit c => [c]
  | .directive c => ['%', c]

/-- The translation of the directive `%c`, as the specification tabulates it. -/
def translateDirective (c : Char) : GoString :=
  if c = 'd' then "02".toList
  else if c = 'b' then "Jan".toList
  else if c = 'm' then "01".toList
  else if c = 'y' then "06".toList
  else if c = 'Y' then "2006".toList
  else if c = 'H' then "15".toList
  else if c = 'M' then "04".toList
  else if c = 'S' then "05".toList
  else if c = 'z' then "-0700".toList
  else if c = 'Z' then "MST".toList
  else if c = '%' then "%".toList
  else ['%', c]

/-- The translation of a token: a directive by the table, a literal byte unchanged. -/
def Token.translation : Token → GoString
  | .lit c => [c]
  | .directive c => translateDirective c

/-- The token list starts with a literal byte that is one of the ten directive letters. -/
def startsWithLetter : List Token → Bool
  | .lit c :: _ => c ∈ directiveLetters
  | _ => false

/-- No `%%` token is immediately followed by a literal directive letter. -/
def escapeSafe : List Token → Bool
  | [] => true
  | t :: rest => !(decide (t = .directive '%') && startsWithLetter rest) && escapeSafe rest

/-- The text of a token once the directives with a letter in `done` have been replaced. -/
def render (done : List Char) : Token → GoString
  | .lit c => [c]
  | .directive c => if c ∈ done then translateDirective c else ['%', c]

/-! ## The tests of the rules, as the loops compute them and as the specification words them -/

/-- The test of the age rule on a captured segment. -/
def ageKeeps (age : Int) (mid : GoString) : Bool :=
  match Atoi mid with
  | some i => decide (i ≥ age)
  | none => false

/-- The instant read from a captured segment: by `time.Parse` when the translated format
is reported to hold a time zone, by `time.ParseInLocation` in the local zone otherwise. -/
def capturedInstant (env : Env) (strptimeFormat mid : GoString) : Option Time :=
  if (convertTimestampFormat strptimeFormat).2 then
    env.parse (convertTimestampFormat strptimeFormat).1 mid
  else env.parseInLocation (convertTimestampFormat strptimeFormat).1 mid

/-- The test of the timestamp rule as the specification words it: the captured segment
parses to an instant `t` with `t ≤ now - expireSec` (seconds). -/
def timestampExpired (env : Env) (now : Time) (strptimeFormat : GoString) (expireSec : Int)
    (mid : GoString) : Bool :=
  match capturedInstant env strptimeFormat mid with
  | some t => decide (t ≤ now - expireSec * 1000000000)
  | none => false

/-- The test of the mtime rule as the specification words it: `stat` succeeds with a
modification time `m ≤ now - expireSec` (seconds). -/
def mtimeExpired (env : Env) (now : Time) (expireSec : Int) (p : GoString) : Bool :=
  match env.stat p with
  | some m => decide (m ≤ now - expireSec * 1000000000)
  | none => false

/-- The test of the timestamp loop against the expiry instant that the code computes. -/
def timestampKeeps (env : Env) (strptimeFormat : GoString) (expired : Time) (mid : GoString) :
    Bool :=
  match capturedInstant env strptimeFormat mid with
  | some t => decide (t ≤ expired)
  | none => false

/-- The test of the mtime loop against the expiry instant that the code computes. -/
def mtimeKeeps (env : Env) (expired : Time) (p : GoString) : Bool :=
  match env.stat p with
  | some m => decide (m ≤ expired)
  | none => false

/-! ## The loops as a judgement per path -/

/-- The judgement of the age rule on one path: an abort, or whether the path is a target. -/
def judgeAge (pathPattern : GoString) (age : Int) (p : GoString) : Except Abort Bool :=
  match globMatchPart p pathPattern with
  | .error e => .error e
  | .ok part => .ok (ageKeeps age part)

/-- The judgement of the timestamp rule on one path: an abort, or whether the path is a
target. -/
def judgeTimestamp (env : Env) (pathPattern strptimeFormat : GoString) (expired : Time)
    (p : GoString) : Except Abort Bool :=
  match globMatchPart p pathPattern with
  | .error e => .error e
  | .ok part => .ok (timestampKeeps env strptimeFormat expired part)

/-- A loop over the paths that ends at the first abort and otherwise keeps, in order, the
paths judged `true`. -/
def collect (judge : GoString → Except Abort Bool) : List GoString → Except Abort (List GoString)
  | [] => .ok []
  | p :: ps =>
    match judge p with
    | .error e => .error e
    | .ok b =>
      match collect judge ps with
      | .error e => .error e
      | .ok l => .ok (if b then p :: l else l)

/-- The path is judged a target. -/
def isTarget (judge : GoString → Except Abort Bool) (p : GoString) : Bool :=
  match judge p with
  | .ok true => true
  | _ => false

/-- The abort `e` is caused by a path of the list: the fatal mismatch error of a path that
lacks the prefix or the suffix, or the out-of-range panic of a path in which the two
overlap. -/
def AbortCause (pre suf : GoString) (paths : List GoString) (e : Abort) : Prop :=
  (∃ q ∈ paths, (¬ pre <+: q ∨ ¬ suf <:+ q) ∧ e = .fatalMismatch q (pre ++ '*' :: suf)) ∨
  (e = .panicSlice ∧ ∃ q ∈ paths, pre <+: q ∧ suf <:+ q ∧ q.length < pre.length + suf.length)

/-- The string `sub` occurs in `s` at the byte index `i`. -/
def OccursAt (sub s : GoString) (i : Nat) : Prop := sub <+: s.drop i

instance (sub s : GoString) (i : Nat) : Decidable (OccursAt sub s i) := by
  unfold OccursAt
  infer_instance

/-- The first occurrence of `sub` in `s` is at the byte index `i`. -/
def FirstOccurrenceAt (sub s : GoString) (i : Nat) : Prop :=
  OccursAt sub s i ∧ ∀ j, j < i → ¬ OccursAt sub s j

instance (sub s : GoString) (i : Nat) : Decidable (FirstOccurrenceAt sub s i) := by
  unfold FirstOccurrenceAt
  infer_instance

/-- The loop of `convertTimestampFormat` run over an arbitrary table of replacements. -/
def replaceWith (table : List (GoString × GoString)) (format : GoString) : GoString :=
  table.foldl (fun result pair => replaceAll result pair.1 pair.2) format

/-- The table entry of the directive `%c`. -/
def tableEntry (c : Char) : GoString × GoString := (['%', c], translateDirective c)

/-- A token of a format without `%%`: a byte other than `%`, or `%` followed by such a byte. -/
def Token.loose : Token → Bool
  | .lit c => c ≠ '%'
  | .directive c => c ≠ '%'

/-! ## The file system, `readConfigList` and `run` -/

/-- An entry of a directory listing: `file.Name()` and `file.IsDir()`. -/
structure DirEntry where
  name : GoString
  isDir : Bool
  deriving DecidableEq, Repr

/-- What the operating system and the libraries decide, apart from the swept files. -/
structure System where
  /-- The call `ioutil.ReadDir(dir)`; `none` is a non-nil error. -/
  readDir : GoString → Option (List DirEntry)
  /-- The call `ioutil.ReadFile(path)`; `none` is a non-nil error. -/
  readFile : GoString → Option GoString
  /-- The call `json.Unmarshal(content, &c)`; `none` is a non-nil error. -/
  unmarshal : GoString → Option Config
  /-- The call `filepath.Join(dir, name)`. -/
  joinPath : GoString → GoString → GoString
  /-- The pattern is malformed: `filepath.Glob` returns `ErrBadPattern`. -/
  badPattern : GoString → Bool
  /-- The path matches the pattern, as `filepath.Glob` decides it. -/
  globMatches : GoString → GoString → Bool
  /-- An existing file at the path can be removed: `os.Remove` returns nil. -/
  removable : GoString → Bool
  /-- The call `time.Parse(layout, value)`; `none` is a non-nil error. -/
  parse : GoString → GoString → Option Time
  /-- The call `time.ParseInLocation(layout, value, time.Local)`; `none` is a non-nil error. -/
  parseInLocation : GoString → GoString → Option Time

/-- Body of the loop of `readConfigList`. -/
def readConfigStep (sys : System) (confDir : GoString) (configs : List Config) (file : DirEntry) :
    Except Abort (List Config) :=
  if file.isDir || !(HasSuffix file.name ".json".toList) then .ok configs
  else
    match sys.readFile (sys.joinPath confDir file.name) with
    | none => .error .fatalReadConfig
    | some content =>
      match sys.unmarshal content with
      | none => .error .fatalReadConfig
      | some c => .ok (configs ++ [c])

/-- The function `readConfigList` of `main.go`. -/
def readConfigList (sys : System) (confDir : GoString) : Except Abort (List Config) :=
  match sys.readDir confDir with
  | none => .error .fatalReadConfig
  | some files => files.foldlM (readConfigStep sys confDir) []

/-- The state that `run` changes: the swept files with their modification times, the
arguments of the calls of `os.Remove` in call order, and the lines written by `log.Print`. -/
structure World where
  files : List (GoString × Time)
  removeCalls : List GoString
  logged : List GoString
  deriving DecidableEq, Repr

/-- The environment of `findTargets` over the files of a state. -/
def envOf (sys : System) (files : List (GoString × Time)) : Env where
  glob := fun pattern =>
    if sys.badPattern pattern then none
    else some ((files.filter (fun f => sys.globMatches pattern f.1)).map Prod.fst)
  stat := fun p => files.lookup p
  parse := sys.parse
  parseInLocation := sys.parseInLocation

/-- The call `os.Remove(target)`: the files without the target, or `none` for a non-nil
error. -/
def osRemove (sys : System) (files : List (GoString × Time)) (target : GoString) :
    Option (List (GoString × Time)) :=
  if sys.removable target && files.any (fun f => f.1 == target) then
    some (files.filter (fun f => f.1 != target))
  else none

/-- Body of the inner loop of `run`. -/
def removeTarget (sys : System) (w : World) (target : GoString) : World :=
  match osRemove sys w.files target with
  | some files => { files := files, removeCalls := w.removeCalls ++ [target], logged := w.logged }
  | none =>
    { files := w.files, removeCalls := w.removeCalls ++ [target],
      logged := w.logged ++ ["Failed to remove a file:".toList ++ target] }

/-- The inner loop of `run`, over the targets of one configuration. -/
def removeTargets (sys : System) (w : World) (targets : List GoString) : World :=
  targets.foldl (removeTarget sys) w

/-- The outer loop of `run`, over the configurations: the state reached, and the abort that
ended the run if there is one. -/
def sweep (sys : System) (now : Time) : World → List Config → World × Option Abort
  | w, [] => (w, none)
  | w, c :: cs =>
    match findTargets (envOf sys w.files) c now with
    | .error e => (w, some e)
    | .ok targets => sweep sys now (removeTargets sys w targets) cs

/-- The function `run` of `main.go`. -/
def run (sys : System) (confDir : GoString) (now : Time) (w : World) : World × Option Abort :=
  match readConfigList sys confDir with
  | .error e => (w, some e)
  | .ok configs => sweep sys now w configs

/-- The targets that `findTargets` returns for a configuration on given files; none when it
aborts. -/
def targetsOf (sys : System) (files : List (GoString × Time)) (now : Time) (c : Config) :
    List GoString :=
  match findTargets (envOf sys files) c now with
  | .ok targets => targets
  | .error _ => []

/-- The path is a target of one of the configurations on given files. -/
def selected (sys : System) (files : List (GoString × Time)) (now : Time) (configs : List Config)
    (p : GoString) : Bool :=
  configs.any (fun c => (targetsOf sys files now c).contains p)

/-! ## Sample environments -/

/-- An environment whose local zone is UTC and whose clock counts from 1970-01-01T00:00:00Z:
the files `f`, `c.1970` and `c.x` exist, each modified at the instant `0`; the pattern `c.*`
expands to `c.1970`, `c.x`, every other pattern to nothing; the layout `2006` reads the value
`1970` as the instant `0` and nothing else parses. -/
def sampleEnv : Env where
  glob := fun p => if p = "c.*".toList then some ["c.1970".toList, "c.x".toList] else some []
  stat := fun p =>
    if p = "f".toList ∨ p = "c.1970".toList ∨ p = "c.x".toList then some 0 else none
  parse := fun _ _ => none
  parseInLocation := fun layout value =>
    if layout = "2006".toList ∧ value = "1970".toList then some 0 else none

/-- The instant `hour:min:sec` of the day `day` of a clock that starts on 2018-06-17 at
00:00:00 local time (`day = 0`). -/
def clock (day hour min sec : Int) : Time :=
  (((day * 24 + hour) * 60 + min) * 60 + sec) * 1000000000

/-- The match of a path against a pattern whose only metacharacter is one `*`: the `*`
stands for any run of bytes without `/`. -/
def starMatch (pattern name : GoString) : Bool :=
  match SplitN2 pattern ['*'] with
  | [pre, suf] =>
    pre.isPrefixOf name && suf.isSuffixOf name && decide (pre.length + suf.length ≤ name.length)
      && !(((name.take (name.length - suf.length)).drop pre.length).contains '/')
  | _ => pattern == name

/-- The layout `2006010215` read in the local zone, for the hours of June 2018. -/
def parseJune2018 (layout value : GoString) : Option Time :=
  if layout = "2006010215".toList ∧ value.length = 10 ∧ value.take 6 = "201806".toList then
    match parseDigits ((value.drop 6).take 2) 0, parseDigits (value.drop 8) 0 with
    | some day, some hour =>
      if 1 ≤ day ∧ day ≤ 30 ∧ hour < 24 then some (clock ((day : Int) - 17) hour 0 0) else none
    | _, _ => none
  else none

/-- The three configurations of `TestRun`. -/
def sampleConfigs : List Config :=
  [ ⟨"age".toList, "log1/c.*".toList, 3, [], 0⟩,
    ⟨"mtime".toList, "log3/c.*".toList, 0, [], 43200⟩,
    ⟨"timestamp".toList, "log2/c.*.log.gz".toList, 0, "%Y%m%d%H".toList, 43200⟩ ]

/-- The system of `TestRun`: the directory `conf` lists `age.json`, `mtime.json` and
`timestamp.json`, sorted by name as `ioutil.ReadDir` returns them; `removable` tells which
removals succeed. -/
def sampleSystem (removable : GoString → Bool) : System where
  readDir := fun dir =>
    if dir = "conf".toList then
      some [⟨"age.json".toList, false⟩, ⟨"mtime.json".toList, false⟩,
        ⟨"timestamp.json".toList, false⟩]
    else none
  readFile := fun path =>
    if path = "conf/age.json".toList then
      some "\x7b\"rule\":\"age\",\"path\":\"log1/c.*\",\"age\":3\x7d".toList
    else if path = "conf/mtime.json".toList then
      some "\x7b\"rule\":\"mtime\",\"path\":\"log3/c.*\",\"expire_sec\":43200\x7d".toList
    else if path = "conf/timestamp.json".toList then
      some ("\x7b\"rule\":\"timestamp\",\"path\":\"log2/c.*.log.gz\",".toList ++
        "\"format\":\"%Y%m%d%H\",\"expire_sec\":43200\x7d".toList)
    else none
  unmarshal := fun content =>
    if content = "\x7b\"rule\":\"age\",\"path\":\"log1/c.*\",\"age\":3\x7d".toList then
      some ⟨"age".toList, "log1/c.*".toList, 3, [], 0⟩
    else if content
        = "\x7b\"rule\":\"mtime\",\"path\":\"log3/c.*\",\"expire_sec\":43200\x7d".toList then
      some ⟨"mtime".toList, "log3/c.*".toList, 0, [], 43200⟩
    else if content = "\x7b\"rule\":\"timestamp\",\"path\":\"log2/c.*.log.gz\",".toList ++
        "\"format\":\"%Y%m%d%H\",\"expire_sec\":43200\x7d".toList then
      some ⟨"timestamp".toList, "log2/c.*.log.gz".toList, 0, "%Y%m%d%H".toList, 43200⟩
    else none
  joinPath := fun dir name => dir ++ "/".toList ++ name
  badPattern := fun _ => false
  globMatches := starMatch
  removable := removable
  parse := fun _ _ => none
  parseInLocation := parseJune2018

/-- The files of `TestRun` with their modification times. -/
def sampleFiles : List (GoString × Time) :=
  [ ("log1/c".toList, clock 1 13 3 50),
    ("log1/c.1".toList, clock 1 12 3 50),
    ("log1/c.2".toList, clock 1 11 3 50),
    ("log1/c.3".toList, clock 1 10 3 50),
    ("log1/c.4".toList, clock 1 9 3 50),
    ("log1/c.5".toList, clock 1 8 3 50),
    ("log1/c.10".toList, clock 1 3 3 50),
    ("log2/c.2018061723.log.gz".toList, clock 1 0 0 1),
    ("log2/c.2018061800.log.gz".toList, clock 1 1 0 1),
    ("log2/c.2018061801.log.gz".toList, clock 1 2 0 1),
    ("log2/c.2018061802.log.gz".toList, clock 1 3 0 1),
    ("log2/c.2018061803.log.gz".toList, clock 1 4 0 1),
    ("log2/c.2018061804.log.gz".toList, clock 1 5 0 1),
    ("log2/c.2018061805.log.gz".toList, clock 1 6 0 1),
    ("log2/c.2018061810.log.gz".toList, clock 1 11 0 1),
    ("log3/c.20180617_23".toList, clock 1 0 0 1),
    ("log3/c.20180618_00".toList, clock 1 1 0 1),
    ("log3/c.20180618_01".toList, clock 1 2 0 1),
    ("log3/c.20180618_02".toList, clock 1 3 0 1),
    ("log3/c.20180618_03".toList, clock 1 4 0 1),
    ("log3/c.20180618_04".toList, clock 1 5 0 1),
    ("log3/c.20180618_05".toList, clock 1 6 0 1),
    ("log3/c.20180618_10".toList, clock 1 11 0 1) ]

/-- The files that `TestRun` asserts to exist after the sweep. -/
def sampleSurvivors : List (GoString × Time) :=
  [ ("log1/c".toList, clock 1 13 3 50),
    ("log1/c.1".toList, clock 1 12 3 50),
    ("log1/c.2".toList, clock 1 11 3 50),
    ("log2/c.2018061805.log.gz".toList, clock 1 6 0 1),
    ("log2/c.2018061810.log.gz".toList, clock 1 11 0 1),
    ("log3/c.20180618_03".toList, clock 1 4 0 1),
    ("log3/c.20180618_04".toList, clock 1 5 0 1),
    ("log3/c.20180618_05".toList, clock 1 6 0 1),
    ("log3/c.20180618_10".toList, clock 1 11 0 1) ]

/-- The state before the sweep of `TestRun`. -/
def sampleWorld : World := ⟨sampleFiles, [], []⟩

/-! ## Lemmas on `Index`, `LastIndex` and `SplitN2` for the separator `*` -/

theorem indexAux_star_of_not_mem (s : GoString) (i : Nat) (h : '*' ∉ s) :
    indexAux ['*'] s i = -1 := by
  induction s generalizing i with
  | nil => simp [indexAux]
  | cons c s ih =>
    simp only [List.mem_cons, not_or] at h
    simp [indexAux, h.1, ih (i + 1) h.2]

theorem indexAux_star_append (pre suf : GoString) (i : Nat) (h : '*' ∉ pre) :
    indexAux ['*'] (pre ++ '*' :: suf) i = ((i + pre.length : Nat) : Int) := by
  induction pre generalizing i with
  | nil => simp [indexAux]
  | cons c pre ih =>
    simp only [List.mem_cons, not_or] at h
    have e := ih (i + 1) h.2
    simp only [List.cons_append, indexAux, List.isPrefixOf, beq_iff_eq, Bool.and_true,
      List.length_cons]
    rw [if_neg h.1]
    show indexAux ['*'] (pre ++ '*' :: suf) (i + 1) = _
    rw [e]
    congr 1
    omega

theorem Index_star_append (pre suf : GoString) (h : '*' ∉ pre) :
    Index (pre ++ '*' :: suf) ['*'] = (pre.length : Int) := by
  simp [Index, indexAux_star_append pre suf 0 h]

theorem SplitN2_star_append (pre suf : GoString) (h : '*' ∉ pre) :
    SplitN2 (pre ++ '*' :: suf) ['*'] = [pre, suf] := by
  simp [SplitN2, Index_star_append pre suf h]

/-- What `globMatchPart` does on a pattern cut at its first `*`: the fatal error when the
path lacks the prefix or the suffix, the slice when the two fit into the path one after the
other, and the out-of-range panic when they overlap. -/
theorem globMatchPart_star (s pre suf : GoString) (h : '*' ∉ pre) :
    globMatchPart s (pre ++ '*' :: suf) =
      if ¬ pre <+: s ∨ ¬ suf <:+ s then .error (.fatalMismatch s (pre ++ '*' :: suf))
      else if pre.length + suf.length ≤ s.length then
        .ok ((s.take (s.length - suf.length)).drop pre.length)
      else .error .panicSlice := by
  simp only [globMatchPart, SplitN2_star_append pre suf h, indexSlice, List.get?, HasPrefix,
    HasSuffix, sliceString]
  by_cases h1 : pre <+: s
  · by_cases h2 : suf <:+ s
    · have hl : suf.length ≤ s.length := h2.length_le
      by_cases h3 : pre.length + suf.length ≤ s.length
      · have e : ((s.length : Int) - (suf.length : Int)).toNat = s.length - suf.length := by
          omega
        have c : (0 : Int) ≤ pre.length ∧ (pre.length : Int) ≤ (s.length : Int) - suf.length ∧
            (s.length : Int) - (suf.length : Int) ≤ s.length := by omega
        simp [h1, h2, h3, e, c]
      · have c : ¬ ((pre.length : Int) ≤ (s.length : Int) - suf.length) := by omega
        simp [h1, h2, h3, c]
    · simp [h1, h2]
  · simp [h1]

theorem globMatchPart_append (pre mid suf : GoString) (h : '*' ∉ pre) :
    globMatchPart (pre ++ mid ++ suf) (pre ++ '*' :: suf) = .ok mid := by
  rw [globMatchPart_star _ _ _ h]
  have h1 : pre <+: pre ++ mid ++ suf := ⟨mid ++ suf, by simp⟩
  have h2 : suf <:+ pre ++ mid ++ suf := ⟨pre ++ mid, by simp⟩
  have h3 : pre.length + suf.length ≤ (pre ++ mid ++ suf).length := by simp
  have e : (pre ++ mid ++ suf).length - suf.length = (pre ++ mid).length := by
    simp only [List.length_append]
    omega
  simp only [h1, h2, not_true_eq_false, or_self, if_false, h3, if_true, e]
  rw [List.take_left', List.drop_left'] <;> rfl

theorem lastIndexAux_star_of_not_mem (s : GoString) (i : Nat) (acc : Int) (h : '*' ∉ s) :
    lastIndexAux ['*'] s i acc = acc := by
  induction s generalizing i acc with
  | nil => simp [lastIndexAux]
  | cons c s ih =>
    simp only [List.mem_cons, not_or] at h
    simp only [lastIndexAux, List.isPrefixOf, beq_iff_eq, Bool.and_true]
    rw [if_neg h.1, ih (i + 1) acc h.2]

theorem lastIndexAux_star_append (pre suf : GoString) (i : Nat) (acc : Int) (h : '*' ∉ suf) :
    lastIndexAux ['*'] (pre ++ '*' :: suf) i acc = ((i + pre.length : Nat) : Int) := by
  induction pre generalizing i acc with
  | nil =>
    simp only [List.nil_append, lastIndexAux, List.isPrefixOf, beq_self_eq_true, Bool.and_true,
      if_true, List.length_nil, Nat.add_zero]
    exact lastIndexAux_star_of_not_mem suf (i + 1) i h
  | cons c pre ih =>
    simp only [List.cons_append, lastIndexAux, List.length_cons]
    have e := ih (i + 1) (if ['*'].isPrefixOf (c :: (pre ++ '*' :: suf)) = true then (i : Int) else acc)
    refine Eq.trans e ?_
    congr 1
    omega

theorem LastIndex_star_append (pre suf : GoString) (h : '*' ∉ suf) :
    LastIndex (pre ++ '*' :: suf) ['*'] = (pre.length : Int) := by
  simp [LastIndex, lastIndexAux_star_append pre suf 0 (-1) h]

theorem exists_first_star (p : GoString) (h : '*' ∈ p) :
    ∃ pre rest, p = pre ++ '*' :: rest ∧ '*' ∉ pre := by
  induction p with
  | nil => simp at h
  | cons c p ih =>
    by_cases hc : '*' = c
    · exact ⟨[], p, by simp [← hc], by simp⟩
    · have hp : '*' ∈ p := by
        rcases List.mem_cons.mp h with h1 | h1
        · exact absurd h1 hc
        · exact h1
      obtain ⟨pre, rest, e, hn⟩ := ih hp
      exact ⟨c :: pre, rest, by simp [e], by simp [hc, hn]⟩

theorem exists_last_star (p : GoString) (h : '*' ∈ p) :
    ∃ pre rest, p = pre ++ '*' :: rest ∧ '*' ∉ rest := by
  induction p with
  | nil => simp at h
  | cons c p ih =>
    by_cases hp : '*' ∈ p
    · obtain ⟨pre, rest, e, hn⟩ := ih hp
      exact ⟨c :: pre, rest, by simp [e], hn⟩
    · have hc : '*' = c := by
        rcases List.mem_cons.mp h with h1 | h1
        · exact h1
        · exact absurd h1 hp
      exact ⟨[], p, by simp [← hc], hp⟩

/-- The wildcard checks of `findTargets`, by the number of `*` in the pattern. -/
theorem checkWildcard_eq (p : GoString) :
    checkWildcard p =
      if p.count '*' = 0 then .error (.fatalNoGlob p)
      else if 2 ≤ p.count '*' then .error (.fatalManyGlob p)
      else .ok () := by
  by_cases hm : '*' ∈ p
  · obtain ⟨pre, rest, e, hpre⟩ := exists_first_star p hm
    have hi : Index p ['*'] = (pre.length : Int) := by rw [e]; exact Index_star_append pre rest hpre
    have hc0 : pre.count '*' = 0 := List.count_eq_zero_of_not_mem hpre
    have hc : p.count '*' = rest.count '*' + 1 := by
      rw [e, List.count_append, hc0]
      simp
    have hne : Index p ['*'] ≠ -1 := by rw [hi]; omega
    by_cases hr : '*' ∈ rest
    · obtain ⟨a, b, e2, hb⟩ := exists_last_star rest hr
      have hl : LastIndex p ['*'] = ((pre ++ '*' :: a).length : Int) := by
        have e3 : p = (pre ++ '*' :: a) ++ '*' :: b := by rw [e, e2]; simp
        rw [e3]
        exact LastIndex_star_append _ b hb
      have hpos : 0 < rest.count '*' := List.count_pos_iff.mpr hr
      have hd : Index p ['*'] ≠ LastIndex p ['*'] := by
        rw [hi, hl]
        simp only [List.length_append, List.length_cons]
        omega
      unfold checkWildcard
      rw [if_neg hne, if_pos hd, if_neg (by omega), if_pos (by omega)]
    · have hl : LastIndex p ['*'] = (pre.length : Int) := by
        rw [e]; exact LastIndex_star_append pre rest hr
      have hz : rest.count '*' = 0 := List.count_eq_zero_of_not_mem hr
      unfold checkWildcard
      rw [if_neg hne, if_neg (by rw [hi, hl]; simp), if_neg (by omega), if_neg (by omega)]
  · have hi : Index p ['*'] = -1 := indexAux_star_of_not_mem p 0 hm
    have hz : p.count '*' = 0 := List.count_eq_zero_of_not_mem hm
    unfold checkWildcard
    rw [if_pos hi, if_pos hz]

/-! ## Replacement of one directive in a tokenised format -/

theorem replaceAux_skip (a : Char) (b new w rest : GoString) (h : a ∉ w) :
    replaceAux (a :: b) new 0 (w ++ rest) = w ++ replaceAux (a :: b) new 0 rest := by
  induction w with
  | nil => simp
  | cons c w ih =>
    simp only [List.mem_cons, not_or] at h
    have hc : (a == c) = false := by simpa using h.1
    simp only [List.cons_append, replaceAux, List.isPrefixOf, hc, Bool.false_and]
    simp [ih h.2]

theorem head_render_ne (X : Char) (done : List Char) (hX : X ≠ '%')
    (hdone : ∀ y ∈ done, translateDirective y ≠ [] ∧ (translateDirective y).head? ≠ some X)
    (t : Token) (rest : List Token) (ht : t ≠ .lit X) :
    ((t :: rest).flatMap (render done)).head? ≠ some X := by
  cases t with
  | lit c =>
    have hc : c ≠ X := fun e => ht (by rw [e])
    simp [render, hc]
  | directive y =>
    by_cases hy : y ∈ done
    · obtain ⟨h1, h2⟩ := hdone y hy
      simp only [List.flatMap_cons, render, hy, if_true]
      cases hw : translateDirective y with
      | nil => exact absurd hw h1
      | cons a w =>
        rw [hw] at h2
        simpa using h2
    · simp only [List.flatMap_cons, render, hy, if_false]
      simpa using fun e : '%' = X => hX e.symm

theorem head_render_of_escapeSafe (X : Char) (done : List Char) (hX : X ≠ '%')
    (hXl : X ∈ directiveLetters)
    (hdone : ∀ y ∈ done, translateDirective y ≠ [] ∧ (translateDirective y).head? ≠ some X)
    (rest : List Token) (hs : startsWithLetter rest = false) :
    (rest.flatMap (render done)).head? ≠ some X := by
  cases rest with
  | nil => simp
  | cons t rest =>
    apply head_render_ne X done hX hdone
    intro e
    rw [e] at hs
    simp [startsWithLetter, hXl] at hs

/-- One pass of the loop of `convertTimestampFormat` for a directive `%X` other than `%%`:
on a tokenised format it replaces exactly the tokens `%X`. -/
theorem replaceAux_step (X : Char) (done : List Char) (hX : X ≠ '%')
    (hXl : X ∈ directiveLetters)
    (hclean : ∀ y ∈ done, '%' ∉ translateDirective y)
    (hdone : ∀ y ∈ done, translateDirective y ≠ [] ∧ (translateDirective y).head? ≠ some X)
    (ts : List Token) (hv : ∀ t ∈ ts, t.valid = true) (hs : escapeSafe ts = true) :
    replaceAux ['%', X] (translateDirective X) 0 (ts.flatMap (render done)) =
      ts.flatMap (render (X :: done)) := by
  induction ts with
  | nil => simp [replaceAux]
  | cons t rest ih =>
    have hv' : ∀ t ∈ rest, t.valid = true := fun t ht => hv t (List.mem_cons_of_mem _ ht)
    simp only [escapeSafe, Bool.and_eq_true, Bool.not_eq_true', Bool.and_eq_false_imp,
      decide_eq_true_eq] at hs
    have ih' := ih hv' hs.2
    have hvt := hv t (List.mem_cons_self _ _)
    cases t with
    | lit c =>
      have hc : '%' ∉ [c] := by
        simp only [Token.valid, decide_eq_true_eq] at hvt
        simpa using fun e : '%' = c => hvt e.symm
      simp only [List.flatMap_cons, render]
      rw [replaceAux_skip '%' [X] _ [c] _ hc, ih']
    | directive y =>
      by_cases hy : y ∈ done
      · have hy' : y ∈ X :: done := List.mem_cons_of_mem _ hy
        simp only [List.flatMap_cons, render, hy, hy', if_true]
        rw [replaceAux_skip '%' [X] _ _ _ (hclean y hy), ih']
      · by_cases hyX : y = X
        · subst hyX
          simp only [List.flatMap_cons, render, hy, if_false, List.mem_cons, true_or, if_true,
            List.cons_append, List.nil_append, replaceAux, List.isPrefixOf, beq_self_eq_true,
            Bool.and_self, List.length_cons, List.length_nil]
          rw [ih']
        · have hy' : y ∉ X :: done := by
            simp only [List.mem_cons, not_or]
            exact ⟨hyX, hy⟩
          have hXy : (X == y) = false := by simpa using fun e : X = y => hyX e.symm
          simp only [List.flatMap_cons, render, hy, hy', if_false, List.cons_append,
            List.nil_append]
          rw [replaceAux]
          simp only [List.isPrefixOf, beq_self_eq_true, hXy, Bool.false_and, Bool.and_false,
            Bool.false_eq_true, if_false]
          by_cases hp : y = '%'
          · subst hp
            have hh := head_render_of_escapeSafe X done hX hXl hdone rest (hs.1 rfl)
            rw [← ih']
            cases hr : rest.flatMap (render done) with
            | nil => simp [replaceAux, List.isPrefixOf]
            | cons a l =>
              rw [hr] at hh
              have ha : (X == a) = false := by simpa using fun e : X = a => hh (by simp [e])
              simp [replaceAux, List.isPrefixOf, ha]
          · have hyp : '%' ∉ [y] := by simpa using fun e : '%' = y => hp e.symm
            have e := replaceAux_skip '%' [X] (translateDirective X) [y]
              (rest.flatMap (render done)) hyp
            simp only [List.cons_append, List.nil_append] at e
            rw [e, ih']

/-- The last pass of the loop of `convertTimestampFormat`, for `%%`: once the ten other
directives are replaced, it replaces exactly the tokens `%%`. -/
theorem replaceAux_percent (done : List Char) (hp : '%' ∉ done)
    (hall : ∀ y ∈ directiveLetters, y ∈ done)
    (hclean : ∀ y ∈ done, '%' ∉ translateDirective y)
    (ts : List Token) (hv : ∀ t ∈ ts, t.valid = true) :
    replaceAux ['%', '%'] ['%'] 0 (ts.flatMap (render done)) = ts.flatMap Token.translation := by
  induction ts with
  | nil => simp [replaceAux]
  | cons t rest ih =>
    have ih' := ih (fun t ht => hv t (List.mem_cons_of_mem _ ht))
    have hvt := hv t (List.mem_cons_self _ _)
    cases t with
    | lit c =>
      have hc : '%' ∉ [c] := by
        simp only [Token.valid, decide_eq_true_eq] at hvt
        simpa using fun e : '%' = c => hvt e.symm
      simp only [List.flatMap_cons, render, Token.translation]
      rw [replaceAux_skip '%' ['%'] _ [c] _ hc, ih']
    | directive y =>
      simp only [Token.valid, decide_eq_true_eq] at hvt
      by_cases hy : y = '%'
      · subst hy
        simp only [List.flatMap_cons, render, hp, if_false, List.cons_append, List.nil_append,
          replaceAux, List.isPrefixOf, beq_self_eq_true, Bool.and_self, if_true,
          List.length_cons, List.length_nil, Token.translation]
        rw [ih']
        rfl
      · have hyd : y ∈ done := by
          rcases hvt with h | h
          · exact hall y h
          · exact absurd h hy
        simp only [List.flatMap_cons, render, hyd, if_true, Token.translation]
        rw [replaceAux_skip '%' ['%'] _ _ _ (hclean y hyd), ih']

theorem convertTimestampFormat_fst (format : GoString) :
    (convertTimestampFormat format).1 =
      replaceAux ['%', '%'] ['%'] 0
      (replaceAux ['%', 'Z'] (translateDirective 'Z') 0
      (replaceAux ['%', 'z'] (translateDirective 'z') 0
      (replaceAux ['%', 'S'] (translateDirective 'S') 0
      (replaceAux ['%', 'M'] (translateDirective 'M') 0
      (replaceAux ['%', 'H'] (translateDirective 'H') 0
      (replaceAux ['%', 'Y'] (translateDirective 'Y') 0
      (replaceAux ['%', 'y'] (translateDirective 'y') 0
      (replaceAux ['%', 'm'] (translateDirective 'm') 0
      (replaceAux ['%', 'b'] (translateDirective 'b') 0
      (replaceAux ['%', 'd'] (translateDirective 'd') 0 format)))))))))) := by
  rfl

theorem flatMap_source_eq_render (ts : List Token) :
    ts.flatMap Token.source = ts.flatMap (render []) := by
  have e : Token.source = render [] := by
    funext t
    cases t <;> simp [render, Token.source]
  rw [e]

/-- On a tokenised format in which no `%%` is followed by a literal directive letter, the
eleven passes of `convertTimestampFormat` yield the concatenation of the translations. -/
theorem convertTimestampFormat_flatMap (ts : List Token) (hv : ∀ t ∈ ts, t.valid = true)
    (hs : escapeSafe ts = true) :
    (convertTimestampFormat (ts.flatMap Token.source)).1 = ts.flatMap Token.translation := by
  rw [convertTimestampFormat_fst, flatMap_source_eq_render,
    replaceAux_step 'd' [] (by decide) (by decide) (by decide) (by decide) ts hv hs,
    replaceAux_step 'b' _ (by decide) (by decide) (by decide) (by decide) ts hv hs,
    replaceAux_step 'm' _ (by decide) (by decide) (by decide) (by decide) ts hv hs,
    replaceAux_step 'y' _ (by decide) (by decide) (by decide) (by decide) ts hv hs,
    replaceAux_step 'Y' _ (by decide) (by decide) (by decide) (by decide) ts hv hs,
    replaceAux_step 'H' _ (by decide) (by decide) (by decide) (by decide) ts hv hs,
    replaceAux_step 'M' _ (by decide) (by decide) (by decide) (by decide) ts hv hs,
    replaceAux_step 'S' _ (by decide) (by decide) (by decide) (by decide) ts hv hs,
    replaceAux_step 'z' _ (by decide) (by decide) (by decide) (by decide) ts hv hs,
    replaceAux_step 'Z' _ (by decide) (by decide) (by decide) (by decide) ts hv hs,
    replaceAux_percent _ (by decide) (by decide) (by decide) ts hv]

/-! ## The loops of the rules on paths of the shape `prefix ++ mid ++ suffix` -/

theorem ageStep_append (pre suf : GoString) (age : Int) (h : '*' ∉ pre)
    (targets : List GoString) (mid : GoString) :
    ageStep (pre ++ '*' :: suf) age targets (pre ++ mid ++ suf) =
      .ok (if ageKeeps age mid then targets ++ [pre ++ mid ++ suf] else targets) := by
  unfold ageStep ageKeeps
  rw [globMatchPart_append pre mid suf h]
  cases ha : Atoi mid with
  | none => simp [ha]
  | some i => by_cases hi : i ≥ age <;> simp [ha, hi]

theorem foldlM_ageStep_append (pre suf : GoString) (age : Int) (h : '*' ∉ pre)
    (mids : List GoString) (targets : List GoString) :
    (mids.map (fun m => pre ++ m ++ suf)).foldlM (ageStep (pre ++ '*' :: suf) age) targets =
      .ok (targets ++ (mids.filter (ageKeeps age)).map (fun m => pre ++ m ++ suf)) := by
  induction mids generalizing targets with
  | nil => simp [pure, Except.pure]
  | cons m mids ih =>
    simp only [List.map_cons, List.foldlM_cons, ageStep_append pre suf age h, bind, Except.bind]
    rw [ih]
    by_cases hk : ageKeeps age m <;> simp [hk, List.filter_cons]

/-- On candidate paths `prefix ++ mid ++ suffix`, `findTargetsWithAge` returns, in input
order and with duplicates, the paths whose `mid` is accepted by `Atoi` with a value at least
`age`. -/
theorem findTargetsWithAge_append (pre suf : GoString) (age : Int) (h : '*' ∉ pre)
    (mids : List GoString) :
    findTargetsWithAge (pre ++ '*' :: suf) (mids.map (fun m => pre ++ m ++ suf)) age =
      .ok ((mids.filter (ageKeeps age)).map (fun m => pre ++ m ++ suf)) := by
  unfold findTargetsWithAge
  rw [foldlM_ageStep_append pre suf age h]
  simp

/-! ## The expiry instant -/

theorem wrapInt64_of_range (x : Int) (hlo : -9223372036854775808 ≤ x)
    (hhi : x ≤ 9223372036854775807) : wrapInt64 x = x := by
  unfold wrapInt64
  omega

/-- When the nanosecond count of `expireSec` seconds fits a `time.Duration`, the expiry
instant is `now` minus `expireSec` seconds. -/
theorem expiredAt_of_range (now : Time) (expireSec : Int) (hlo : -9223372036 ≤ expireSec)
    (hhi : expireSec ≤ 9223372036) :
    expiredAt now expireSec = now - expireSec * 1000000000 := by
  unfold expiredAt mulInt64 Second
  rw [wrapInt64_of_range (expireSec * 1000000000) (by omega) (by omega),
    wrapInt64_of_range (expireSec * 1000000000 * -1) (by omega) (by omega)]
  ring

theorem beforeOrEqual_iff (t expired : Time) : beforeOrEqual t expired = decide (t ≤ expired) := by
  unfold beforeOrEqual
  by_cases h : t ≤ expired
  · rcases lt_or_eq_of_le h with h1 | h1 <;> simp [h, h1]
  · have h1 : ¬ t < expired := fun c => h (le_of_lt c)
    have h2 : ¬ t = expired := fun c => h (le_of_eq c)
    simp [h, h1, h2]

theorem timestampStep_append (env : Env) (pre suf strptimeFormat : GoString) (expired : Time)
    (h : '*' ∉ pre) (targets : List GoString) (mid : GoString) :
    timestampStep env (pre ++ '*' :: suf) (convertTimestampFormat strptimeFormat).1
        (convertTimestampFormat strptimeFormat).2 expired targets (pre ++ mid ++ suf) =
      .ok (if timestampKeeps env strptimeFormat expired mid then targets ++ [pre ++ mid ++ suf]
        else targets) := by
  unfold timestampStep timestampKeeps capturedInstant
  rw [globMatchPart_append pre mid suf h]
  simp only [beforeOrEqual_iff]
  split <;> rename_i hp <;> simp only [hp]
  · simp
  · rename_i t
    by_cases ht : t ≤ expired <;> simp [ht]

theorem foldlM_timestampStep_append (env : Env) (pre suf strptimeFormat : GoString)
    (expired : Time) (h : '*' ∉ pre) (mids : List GoString) (targets : List GoString) :
    (mids.map (fun m => pre ++ m ++ suf)).foldlM
        (timestampStep env (pre ++ '*' :: suf) (convertTimestampFormat strptimeFormat).1
          (convertTimestampFormat strptimeFormat).2 expired) targets =
      .ok (targets ++ (mids.filter (timestampKeeps env strptimeFormat expired)).map
        (fun m => pre ++ m ++ suf)) := by
  induction mids generalizing targets with
  | nil => simp [pure, Except.pure]
  | cons m mids ih =>
    simp only [List.map_cons, List.foldlM_cons, timestampStep_append env pre suf strptimeFormat
      expired h, bind, Except.bind]
    rw [ih]
    by_cases hk : timestampKeeps env strptimeFormat expired m <;> simp [hk, List.filter_cons]

/-- On candidate paths `prefix ++ mid ++ suffix`, `findTargetsWithTimestamp` returns, in
input order, the paths whose `mid` parses to an instant not after the computed expiry. -/
theorem findTargetsWithTimestamp_append (env : Env) (now : Time) (pre suf strptimeFormat : GoString)
    (expireSec : Int) (h : '*' ∉ pre) (mids : List GoString) :
    findTargetsWithTimestamp env now (pre ++ '*' :: suf) (mids.map (fun m => pre ++ m ++ suf))
        strptimeFormat expireSec =
      .ok ((mids.filter (timestampKeeps env strptimeFormat (expiredAt now expireSec))).map
        (fun m => pre ++ m ++ suf)) := by
  unfold findTargetsWithTimestamp
  simp only []
  rw [foldlM_timestampStep_append env pre suf strptimeFormat _ h]
  simp

theorem foldl_mtimeStep (env : Env) (expired : Time) (paths targets : List GoString) :
    paths.foldl (mtimeStep env expired) targets = targets ++ paths.filter (mtimeKeeps env expired) := by
  induction paths generalizing targets with
  | nil => simp
  | cons p paths ih =>
    simp only [List.foldl_cons, ih, List.filter_cons]
    unfold mtimeStep mtimeKeeps
    simp only [beforeOrEqual_iff]
    cases hs : env.stat p with
    | none => simp
    | some m => by_cases hm : m ≤ expired <;> simp [hm]

/-- The function `findTargetsWithMtime` returns, in input order, the paths for which `stat`
succeeds with a modification time not after the computed expiry. -/
theorem findTargetsWithMtime_filter (env : Env) (now : Time) (paths : List GoString)
    (expireSec : Int) :
    findTargetsWithMtime env now paths expireSec =
      paths.filter (mtimeKeeps env (expiredAt now expireSec)) := by
  unfold findTargetsWithMtime
  simp [foldl_mtimeStep]

/-! ## The claims -/

/-- C1: for every prefix, mid and suffix where prefix and suffix contain no `*`,
`globMatchPart (prefix ++ mid ++ suffix) (prefix ++ "*" ++ suffix)` returns exactly `mid`
and does not abort. -/
theorem globMatchPart_returns_mid (pre mid suf : GoString) (hpre : '*' ∉ pre) (_hsuf : '*' ∉ suf) :
    globMatchPart (pre ++ mid ++ suf) (pre ++ "*".toList ++ suf) = .ok mid := by
  have e : pre ++ "*".toList ++ suf = pre ++ '*' :: suf := by simp
  rw [e]
  exact globMatchPart_append pre mid suf hpre

/-- Witness of C1: the second case of `TestGlobMatchPart`. -/
theorem globMatchPart_returns_mid_witness :
    '*' ∉ "/my/path/access_log.".toList ∧ '*' ∉ ".log".toList ∧
    globMatchPart "/my/path/access_log.20180617.log".toList "/my/path/access_log.*.log".toList
      = .ok "20180617".toList :=
  ⟨by decide, by decide,
    globMatchPart_returns_mid "/my/path/access_log.".toList "20180617".toList ".log".toList
      (by decide) (by decide)⟩

/-- C2 (failing input): on the pattern `ab*ba` the path `aba` starts with the prefix `ab` and
ends with the suffix `ba`, yet `findTargetsWithAge` does not return a list: the slice of
`globMatchPart` is out of range and the run panics. -/
theorem findTargetsWithAge_overlap_panics :
    "ab".toList <+: "aba".toList ∧ "ba".toList <:+ "aba".toList ∧
    findTargetsWithAge "ab*ba".toList ["aba".toList] 0 = .error .panicSlice := by
  decide

/-- C3 (as stated, refuted): with `expireSec = 9223372037` the nanosecond product leaves the
`int64` range, the computed expiry lies after `now`, and the path whose capture `1970` is the
instant `0 > now - expireSec` is returned, while the filter of the claim keeps nothing. -/
theorem findTargetsWithTimestamp_overflow_counterexample :
    findTargetsWithTimestamp sampleEnv 0 "c.*".toList ["c.1970".toList] "%Y".toList 9223372037
      = .ok ["c.1970".toList] ∧
    capturedInstant sampleEnv "%Y".toList "1970".toList = some 0 ∧
    ¬ ((0 : Int) ≤ 0 - 9223372037 * 1000000000) ∧
    ¬ (findTargetsWithTimestamp sampleEnv 0 "c.*".toList ["c.1970".toList] "%Y".toList 9223372037
      = .ok ((["1970".toList].filter (timestampExpired sampleEnv 0 "%Y".toList 9223372037)).map
          (fun m => "c.".toList ++ m ++ [])) ) := by
  decide

/-- C3 (amended): for every instant `now`, every `expireSec` between `-9223372036` and
`9223372036` (the second counts whose nanosecond value fits a `time.Duration`), every format,
every pattern with exactly one `*` and every list of paths of the shape
`prefix ++ mid ++ suffix`, `findTargetsWithTimestamp` returns the input list filtered, in
input order, to the paths whose `mid` parses under the translated format (by `time.Parse`
when the translator reports a time zone, by `time.ParseInLocation` in the local zone
otherwise) to an instant `t ≤ now - expireSec`; a capture at exactly `now - expireSec` is
returned, one a second later is not, and one that does not parse is not. -/
theorem findTargetsWithTimestamp_expired (env : Env) (now : Time)
    (pre suf strptimeFormat : GoString) (expireSec : Int) (mids : List GoString)
    (hpre : '*' ∉ pre) (_hsuf : '*' ∉ suf)
    (hlo : -9223372036 ≤ expireSec) (hhi : expireSec ≤ 9223372036) :
    ∃ targets,
      findTargetsWithTimestamp env now (pre ++ "*".toList ++ suf)
        (mids.map (fun m => pre ++ m ++ suf)) strptimeFormat expireSec = .ok targets ∧
      targets = (mids.filter (timestampExpired env now strptimeFormat expireSec)).map
        (fun m => pre ++ m ++ suf) ∧
      ∀ m ∈ mids,
        (capturedInstant env strptimeFormat m = some (now - expireSec * 1000000000) →
          pre ++ m ++ suf ∈ targets) ∧
        (capturedInstant env strptimeFormat m
            = some (now - expireSec * 1000000000 + 1000000000) →
          pre ++ m ++ suf ∉ targets) ∧
        (capturedInstant env strptimeFormat m = none → pre ++ m ++ suf ∉ targets) := by
  have e : pre ++ "*".toList ++ suf = pre ++ '*' :: suf := by simp
  have hk : timestampKeeps env strptimeFormat (expiredAt now expireSec)
      = timestampExpired env now strptimeFormat expireSec := by
    funext m
    simp only [timestampKeeps, timestampExpired, expiredAt_of_range now expireSec hlo hhi]
  have hmem : ∀ m : GoString, pre ++ m ++ suf ∈
      (mids.filter (timestampExpired env now strptimeFormat expireSec)).map
        (fun m => pre ++ m ++ suf) ↔
      m ∈ mids ∧ timestampExpired env now strptimeFormat expireSec m = true := by
    intro m
    simp only [List.mem_map, List.mem_filter]
    constructor
    · rintro ⟨m', hm', heq⟩
      have : m' = m := List.append_cancel_left (List.append_cancel_right heq)
      exact this ▸ hm'
    · intro hm
      exact ⟨m, hm, rfl⟩
  refine ⟨_, ?_, rfl, ?_⟩
  · rw [e, findTargetsWithTimestamp_append env now pre suf strptimeFormat expireSec hpre, hk]
  · intro m hm
    refine ⟨?_, ?_, ?_⟩
    · intro hc
      rw [hmem]
      exact ⟨hm, by simp [timestampExpired, hc]⟩
    · intro hc
      rw [hmem]
      simp [timestampExpired, hc]
    · intro hc
      rw [hmem]
      simp [timestampExpired, hc]

/-- Witness of C3: twelve hours of expiry at the instant `43200` seconds; the capture at
the instant `0` is returned and the one that does not parse is not. -/
theorem findTargetsWithTimestamp_expired_witness :
    '*' ∉ "c.".toList ∧ '*' ∉ ([] : GoString) ∧ (-9223372036 : Int) ≤ 43200 ∧
    (43200 : Int) ≤ 9223372036 ∧
    findTargetsWithTimestamp sampleEnv 43200000000000 "c.*".toList
      ["c.1970".toList, "c.x".toList] "%Y".toList 43200 = .ok ["c.1970".toList] := by
  refine ⟨by decide, by decide, by decide, by decide, ?_⟩
  obtain ⟨targets, h1, h2, _⟩ := findTargetsWithTimestamp_expired sampleEnv 43200000000000
    "c.".toList [] "%Y".toList 43200 ["1970".toList, "x".toList] (by decide) (by decide)
    (by decide) (by decide)
  rw [h2] at h1
  exact h1

/-- C4 (as stated, refuted): with `expireSec = 9223372037` the nanosecond product leaves the
`int64` range and the file modified at the instant `0 > now - expireSec` is returned. -/
theorem findTargetsWithMtime_overflow_counterexample :
    findTargetsWithMtime sampleEnv 0 ["f".toList] 9223372037 = ["f".toList] ∧
    sampleEnv.stat "f".toList = some 0 ∧
    ¬ ((0 : Int) ≤ 0 - 9223372037 * 1000000000) ∧
    ¬ (findTargetsWithMtime sampleEnv 0 ["f".toList] 9223372037
      = ["f".toList].filter (mtimeExpired sampleEnv 0 9223372037)) := by
  decide

/-- C4 (amended): for every instant `now`, every `expireSec` between `-9223372036` and
`9223372036` (the second counts whose nanosecond value fits a `time.Duration`), every list of
paths and every stat function, `findTargetsWithMtime` returns (it is total) the input list
filtered, in input order, to the paths for which stat succeeds with a modification time
`m ≤ now - expireSec`; paths modified strictly after `now - expireSec` and paths whose stat
fails are not returned. -/
theorem findTargetsWithMtime_expired (env : Env) (now : Time) (paths : List GoString)
    (expireSec : Int) (hlo : -9223372036 ≤ expireSec) (hhi : expireSec ≤ 9223372036) :
    findTargetsWithMtime env now paths expireSec
        = paths.filter (mtimeExpired env now expireSec) ∧
      ∀ p,
        (∀ m, env.stat p = some m → now - expireSec * 1000000000 < m →
          p ∉ findTargetsWithMtime env now paths expireSec) ∧
        (env.stat p = none → p ∉ findTargetsWithMtime env now paths expireSec) ∧
        (∀ m, p ∈ paths → env.stat p = some m → m ≤ now - expireSec * 1000000000 →
          p ∈ findTargetsWithMtime env now paths expireSec) := by
  have hk : mtimeKeeps env (expiredAt now expireSec) = mtimeExpired env now expireSec := by
    funext p
    simp only [mtimeKeeps, mtimeExpired, expiredAt_of_range now expireSec hlo hhi]
  have h : findTargetsWithMtime env now paths expireSec
      = paths.filter (mtimeExpired env now expireSec) := by
    rw [findTargetsWithMtime_filter, hk]
  refine ⟨h, fun p => ⟨?_, ?_, ?_⟩⟩
  · intro m hs hm
    rw [h, List.mem_filter]
    simp [mtimeExpired, hs, hm]
  · intro hs
    rw [h, List.mem_filter]
    simp [mtimeExpired, hs]
  · intro m hp hs hm
    rw [h, List.mem_filter]
    exact ⟨hp, by simp [mtimeExpired, hs, hm]⟩

/-- Witness of C4: twelve hours of expiry; at the instant `43200` seconds the file modified
at `0` is returned and the missing file is not. -/
theorem findTargetsWithMtime_expired_witness :
    (-9223372036 : Int) ≤ 43200 ∧ (43200 : Int) ≤ 9223372036 ∧
    findTargetsWithMtime sampleEnv 43200000000000 ["f".toList, "g".toList] 43200
      = ["f".toList] :=
  ⟨by decide, by decide,
    (findTargetsWithMtime_expired sampleEnv 43200000000000 ["f".toList, "g".toList] 43200
      (by decide) (by decide)).1.trans (by decide)⟩

/-- C7: for a pattern with exactly one `*`, `globMatchPart` ends in the fatal "doesn't match
to path pattern" error if and only if the path does not start with the text before the `*`
or does not end with the text after it. -/
theorem globMatchPart_fatal_iff (s pre suf : GoString) (hpre : '*' ∉ pre) (_hsuf : '*' ∉ suf) :
    globMatchPart s (pre ++ "*".toList ++ suf)
        = .error (.fatalMismatch s (pre ++ "*".toList ++ suf)) ↔
      (¬ pre <+: s ∨ ¬ suf <:+ s) := by
  have e : pre ++ "*".toList ++ suf = pre ++ '*' :: suf := by simp
  rw [e, globMatchPart_star s pre suf hpre]
  by_cases hm : ¬ pre <+: s ∨ ¬ suf <:+ s
  · simp [hm]
  · rw [if_neg hm]
    by_cases hl : pre.length + suf.length ≤ s.length <;> simp [hl, hm]

/-- Witness of C7: a path with another prefix than the pattern. -/
theorem globMatchPart_fatal_iff_witness :
    '*' ∉ "/a/b/c.".toList ∧ '*' ∉ ".log".toList ∧
    (globMatchPart "/a/x/c.1.log".toList ("/a/b/c.".toList ++ "*".toList ++ ".log".toList)
        = .error (.fatalMismatch "/a/x/c.1.log".toList
            ("/a/b/c.".toList ++ "*".toList ++ ".log".toList)) ↔
      (¬ "/a/b/c.".toList <+: "/a/x/c.1.log".toList ∨ ¬ ".log".toList <:+ "/a/x/c.1.log".toList)) :=
  ⟨by decide, by decide,
    globMatchPart_fatal_iff "/a/x/c.1.log".toList "/a/b/c.".toList ".log".toList
      (by decide) (by decide)⟩

/-- C8 (failing input): the path `aba` starts with the prefix `ab` of the pattern `ab*ba` and
ends with its suffix `ba`, so the fatal branch is not taken, but the two overlap:
`len(prefix) + len(suffix) = 4 > 3 = len(path)`, the slice `path[2:1]` is out of range and
`globMatchPart` panics instead of returning a string. -/
theorem globMatchPart_overlap_panics :
    "ab".toList <+: "aba".toList ∧ "ba".toList <:+ "aba".toList ∧
    ¬ ("ab".toList.length + "ba".toList.length ≤ "aba".toList.length) ∧
    globMatchPart "aba".toList "ab*ba".toList = .error .panicSlice := by
  decide

/-- C5 (as stated, refuted): the format `%%d` is the token `%%` followed by the byte `d`, so
the concatenation of the translations is `%d`; the first pass of `convertTimestampFormat`
replaces the `%d` that straddles the two tokens and the result is `%02`. -/
theorem convertTimestampFormat_escaped_letter_counterexample :
    (∀ t ∈ [Token.directive '%', Token.lit 'd'], t.valid = true) ∧
    [Token.directive '%', Token.lit 'd'].flatMap Token.source = "%%d".toList ∧
    [Token.directive '%', Token.lit 'd'].flatMap Token.translation = "%d".toList ∧
    (convertTimestampFormat "%%d".toList).1 = "%02".toList ∧
    ¬ ((convertTimestampFormat ([Token.directive '%', Token.lit 'd'].flatMap Token.source)).1
      = [Token.directive '%', Token.lit 'd'].flatMap Token.translation) := by
  decide

/-- C5 (amended): for every format string that is a concatenation of tokens, each one of the
eleven supported directives or a single byte other than `%`, in which no `%%` token is
immediately followed by a single-byte token that is one of the letters `d`, `b`, `m`, `y`,
`Y`, `H`, `M`, `S`, `z`, `Z`, the first result of `convertTimestampFormat` is the
concatenation of the translations of the tokens: `%d` to `02`, `%b` to `Jan`, `%m` to `01`,
`%y` to `06`, `%Y` to `2006`, `%H` to `15`, `%M` to `04`, `%S` to `05`, `%z` to `-0700`,
`%Z` to `MST`, `%%` to `%`, and every other byte unchanged. -/
theorem convertTimestampFormat_translates (ts : List Token) (hvalid : ∀ t ∈ ts, t.valid = true)
    (hsafe : escapeSafe ts = true) :
    (convertTimestampFormat (ts.flatMap Token.source)).1 = ts.flatMap Token.translation :=
  convertTimestampFormat_flatMap ts hvalid hsafe

/-- Witness of C5: the two formats of `TestConvertTimestampFormat`. -/
theorem convertTimestampFormat_translates_witness :
    (convertTimestampFormat "%Y-%m-%d_%H%M%S".toList).1 = "2006-01-02_150405".toList ∧
    (convertTimestampFormat "%Y%m%d%H%%%Z".toList).1 = "2006010215%MST".toList :=
  ⟨convertTimestampFormat_translates
      [.directive 'Y', .lit '-', .directive 'm', .lit '-', .directive 'd', .lit '_',
        .directive 'H', .directive 'M', .directive 'S'] (by decide) (by decide),
    convertTimestampFormat_translates
      [.directive 'Y', .directive 'm', .directive 'd', .directive 'H', .directive '%',
        .directive 'Z'] (by decide) (by decide)⟩

/-- C6 (failing input): in the format `%Z%Y%m%d` the directive `%Z` occurs, at index `0`,
and `convertTimestampFormat` reports no time zone, because the source tests
`strings.Index(...) > 0`. -/
theorem convertTimestampFormat_misses_leading_zone :
    "%Z".toList <+: "%Z%Y%m%d".toList ∧
    Index "%Z%Y%m%d".toList "%Z".toList = 0 ∧
    convertTimestampFormat "%Z%Y%m%d".toList = ("MST20060102".toList, false) := by
  decide

/-- C9: `findTargets` passes its two wildcard checks if and only if the path pattern holds
exactly one `*`; with no `*` and with two or more it ends in the corresponding fatal error
whatever the file system holds, and with exactly one it goes on to the glob expansion. -/
theorem findTargets_wildcard_validation (env : Env) (c : Config) (now : Time) :
    (checkWildcard c.PathPattern = .ok () ↔ c.PathPattern.count '*' = 1) ∧
    findTargets env c now =
      if c.PathPattern.count '*' = 0 then .error (.fatalNoGlob c.PathPattern)
      else if 2 ≤ c.PathPattern.count '*' then .error (.fatalManyGlob c.PathPattern)
      else
        match env.glob c.PathPattern with
        | none => .error .fatalGlobError
        | some paths => dispatchRule env c now paths := by
  have h := checkWildcard_eq c.PathPattern
  constructor
  · rw [h]
    by_cases h0 : c.PathPattern.count '*' = 0
    · simp [h0]
    · by_cases h2 : 2 ≤ c.PathPattern.count '*'
      · rw [if_neg h0, if_pos h2]
        simp only [reduceCtorEq, false_iff]
        omega
      · rw [if_neg h0, if_neg h2]
        simp only [true_iff]
        omega
  · unfold findTargets
    rw [h]
    by_cases h0 : c.PathPattern.count '*' = 0
    · simp [h0]
    · by_cases h2 : 2 ≤ c.PathPattern.count '*'
      · simp [h0, h2]
      · simp [h0, h2]

/-- C10: when the pattern holds exactly one `*` and the glob expansion succeeds with `paths`,
`findTargets` returns what `findTargetsWithAge` returns for the rule `age`, what
`findTargetsWithTimestamp` returns for `timestamp`, what `findTargetsWithMtime` returns for
`mtime`, and ends in the fatal "Unknown rule" error, without targets, for every other rule
string. -/
theorem findTargets_dispatch (env : Env) (c : Config) (now : Time) (paths : List GoString)
    (hstar : c.PathPattern.count '*' = 1) (hglob : env.glob c.PathPattern = some paths) :
    (c.Rule = "age".toList →
      findTargets env c now = findTargetsWithAge c.PathPattern paths c.Age) ∧
    (c.Rule = "timestamp".toList →
      findTargets env c now =
        findTargetsWithTimestamp env now c.PathPattern paths c.Format c.ExpireSec) ∧
    (c.Rule = "mtime".toList →
      findTargets env c now = .ok (findTargetsWithMtime env now paths c.ExpireSec)) ∧
    (c.Rule ≠ "age".toList → c.Rule ≠ "timestamp".toList → c.Rule ≠ "mtime".toList →
      findTargets env c now = .error (.fatalUnknownRule c.Rule)) := by
  have h : findTargets env c now = dispatchRule env c now paths := by
    unfold findTargets
    rw [checkWildcard_eq, if_neg (by omega), if_neg (by omega)]
    simp only [hglob]
  rw [h]
  unfold dispatchRule
  refine ⟨?_, ?_, ?_, ?_⟩
  · intro hr
    rw [if_pos hr]
  · intro hr
    rw [if_neg (by rw [hr]; decide), if_pos hr]
  · intro hr
    rw [if_neg (by rw [hr]; decide), if_neg (by rw [hr]; decide), if_pos hr]
  · intro h1 h2 h3
    rw [if_neg h1, if_neg h2, if_neg h3]

/-- Witness of C10: the rule names `Age` and the empty string are unknown, and the rule `age`
on the sample file system returns what `findTargetsWithAge` returns. -/
theorem findTargets_dispatch_witness :
    "c.*".toList.count '*' = 1 ∧
    sampleEnv.glob "c.*".toList = some ["c.1970".toList, "c.x".toList] ∧
    findTargets sampleEnv ⟨"Age".toList, "c.*".toList, 3, [], 0⟩ 0
      = .error (.fatalUnknownRule "Age".toList) ∧
    findTargets sampleEnv ⟨[], "c.*".toList, 3, [], 0⟩ 0 = .error (.fatalUnknownRule []) ∧
    findTargets sampleEnv ⟨"age".toList, "c.*".toList, 3, [], 0⟩ 0
      = findTargetsWithAge "c.*".toList ["c.1970".toList, "c.x".toList] 3 :=
  ⟨by decide, by decide,
    (findTargets_dispatch sampleEnv ⟨"Age".toList, "c.*".toList, 3, [], 0⟩ 0
      ["c.1970".toList, "c.x".toList] (by decide) (by decide)).2.2.2
      (by decide) (by decide) (by decide),
    (findTargets_dispatch sampleEnv ⟨[], "c.*".toList, 3, [], 0⟩ 0
      ["c.1970".toList, "c.x".toList] (by decide) (by decide)).2.2.2
      (by decide) (by decide) (by decide),
    (findTargets_dispatch sampleEnv ⟨"age".toList, "c.*".toList, 3, [], 0⟩ 0
      ["c.1970".toList, "c.x".toList] (by decide) (by decide)).1 (by decide)⟩

/-! ## The claims on the expiry instant and on the capture -/

theorem wrapInt64_bounds (x : Int) :
    -9223372036854775808 ≤ wrapInt64 x ∧ wrapInt64 x ≤ 9223372036854775807 := by
  unfold wrapInt64
  omega

theorem expiredAt_eq_iff (now : Time) (expireSec : Int)
    (hlo : -9223372036854775808 ≤ expireSec) (hhi : expireSec ≤ 9223372036854775807) :
    expiredAt now expireSec = now - expireSec * 1000000000 ↔
      (-9223372036 ≤ expireSec ∧ expireSec ≤ 9223372036) := by
  constructor
  · intro h
    have hb := wrapInt64_bounds (wrapInt64 (expireSec * 1000000000) * -1)
    unfold expiredAt mulInt64 Second at h
    have h' : @Eq Int (now + wrapInt64 (wrapInt64 (expireSec * 1000000000) * -1))
        (now - expireSec * 1000000000) := h
    omega
  · intro h
    exact expiredAt_of_range now expireSec h.1 h.2

/-- C13 (as stated, refuted): `expireSec = 9223372037` is a Go `int`, its nanosecond product
leaves the `int64` range and wraps, and the expiry instant is about 292 years after `now`
instead of `expireSec` seconds before it. -/
theorem expiredAt_overflow_counterexample :
    (-9223372036854775808 : Int) ≤ 9223372037 ∧ (9223372037 : Int) ≤ 9223372036854775807 ∧
    expiredAt 0 9223372037 = 9223372036709551616 ∧
    ¬ (expiredAt 0 9223372037 = 0 - 9223372037 * 1000000000) := by
  decide

/-- C13 (amended): for every instant `now` and every `expireSec` of the 64-bit `int` range,
the expiry instant computed with the wrapping `int64` nanosecond product equals `now` minus
exactly `expireSec` seconds if and only if `-9223372036 ≤ expireSec ≤ 9223372036`, the
second counts whose nanosecond value fits a `time.Duration`. -/
theorem expiredAt_exact_iff (now : Time) (expireSec : Int)
    (hlo : -9223372036854775808 ≤ expireSec) (hhi : expireSec ≤ 9223372036854775807) :
    expiredAt now expireSec = now - expireSec * 1000000000 ↔
      (-9223372036 ≤ expireSec ∧ expireSec ≤ 9223372036) :=
  expiredAt_eq_iff now expireSec hlo hhi

/-- Witness of C13: twelve hours before the instant `43200` seconds is the instant `0`. -/
theorem expiredAt_exact_iff_witness :
    (-9223372036854775808 : Int) ≤ 43200 ∧ (43200 : Int) ≤ 9223372036854775807 ∧
    expiredAt 43200000000000 43200 = 43200000000000 - 43200 * 1000000000 :=
  ⟨by decide, by decide,
    (expiredAt_exact_iff 43200000000000 43200 (by decide) (by decide)).mpr
      ⟨by decide, by decide⟩⟩

/-- C18: for a pattern with exactly one `*`, whenever `globMatchPart` returns a string `r`,
the pattern with its wildcard replaced by `r` is the path: `prefix ++ r ++ suffix = path`. -/
theorem globMatchPart_reconstructs (s pre suf r : GoString) (hpre : '*' ∉ pre)
    (_hsuf : '*' ∉ suf) (h : globMatchPart s (pre ++ "*".toList ++ suf) = .ok r) :
    pre ++ r ++ suf = s := by
  have e : pre ++ "*".toList ++ suf = pre ++ '*' :: suf := by simp
  rw [e, globMatchPart_star s pre suf hpre] at h
  by_cases hm : ¬ pre <+: s ∨ ¬ suf <:+ s
  · rw [if_pos hm] at h
    cases h
  · rw [if_neg hm] at h
    by_cases hl : pre.length + suf.length ≤ s.length
    · rw [if_pos hl] at h
      have hr : r = (s.take (s.length - suf.length)).drop pre.length := by
        injection h with h'
        exact h'.symm
      have h1 : pre <+: s := by
        by_contra c
        exact hm (Or.inl c)
      have h2 : suf <:+ s := by
        by_contra c
        exact hm (Or.inr c)
      obtain ⟨u, hu⟩ := h2
      have hlen : s.length - suf.length = u.length := by
        rw [← hu, List.length_append]
        omega
      have htake : s.take (s.length - suf.length) = u := by
        rw [hlen, ← hu, List.take_left']
        rfl
      have hpu : pre <+: u := by
        apply List.prefix_of_prefix_length_le h1 ⟨suf, hu⟩
        rw [← hu, List.length_append] at hl
        omega
      obtain ⟨v, hv⟩ := hpu
      rw [hr, htake, ← hv, List.drop_left' rfl, ← hu, ← hv]
    · rw [if_neg hl] at h
      cases h

/-- Witness of C18: the first case of `TestGlobMatchPart`. -/
theorem globMatchPart_reconstructs_witness :
    '*' ∉ "/my/path/access_log.".toList ∧ '*' ∉ ([] : GoString) ∧
    globMatchPart "/my/path/access_log.1".toList ("/my/path/access_log.".toList ++ "*".toList ++ [])
      = .ok "1".toList ∧
    "/my/path/access_log.".toList ++ "1".toList ++ [] = "/my/path/access_log.1".toList :=
  ⟨by decide, by decide, by decide,
    globMatchPart_reconstructs "/my/path/access_log.1".toList "/my/path/access_log.".toList []
      "1".toList (by decide) (by decide) (by decide)⟩

/-! ## The loops as judgements -/

theorem collect_ok (judge : GoString → Except Abort Bool) (ps l : List GoString)
    (h : collect judge ps = .ok l) :
    l = ps.filter (isTarget judge) ∧ ∀ p ∈ ps, ∃ b, judge p = .ok b := by
  induction ps generalizing l with
  | nil =>
    simp only [collect] at h
    injection h with h
    simp [← h]
  | cons p ps ih =>
    simp only [collect] at h
    cases hj : judge p with
    | error e => simp [hj] at h
    | ok b =>
      cases hc : collect judge ps with
      | error e => simp [hj, hc] at h
      | ok l' =>
        simp only [hj, hc] at h
        injection h with h
        obtain ⟨h1, h2⟩ := ih l' hc
        constructor
        · rw [← h, h1, List.filter_cons]
          cases b <;> simp [isTarget, hj]
        · intro q hq
          rcases List.mem_cons.mp hq with e | e
          · exact ⟨b, by rw [e, hj]⟩
          · exact h2 q e

theorem collect_of_ok (judge : GoString → Except Abort Bool) (ps : List GoString)
    (h : ∀ p ∈ ps, ∃ b, judge p = .ok b) :
    collect judge ps = .ok (ps.filter (isTarget judge)) := by
  induction ps with
  | nil => simp [collect]
  | cons p ps ih =>
    obtain ⟨b, hb⟩ := h p (List.mem_cons_self _ _)
    have ih' := ih (fun q hq => h q (List.mem_cons_of_mem _ hq))
    simp only [collect, hb, ih', List.filter_cons]
    cases b <;> simp [isTarget, hb]

theorem collect_error (judge : GoString → Except Abort Bool) (ps : List GoString)
    (h : ∃ p ∈ ps, ∃ e, judge p = .error e) :
    ∃ p ∈ ps, ∃ e, judge p = .error e ∧ collect judge ps = .error e := by
  induction ps with
  | nil =>
    obtain ⟨p, hp, _⟩ := h
    simp at hp
  | cons q ps ih =>
    cases hj : judge q with
    | error e => exact ⟨q, List.mem_cons_self _ _, e, hj, by simp [collect, hj]⟩
    | ok b =>
      have h' : ∃ p ∈ ps, ∃ e, judge p = .error e := by
        obtain ⟨p, hp, e, he⟩ := h
        rcases List.mem_cons.mp hp with c | c
        · rw [c, hj] at he
          cases he
        · exact ⟨p, c, e, he⟩
      obtain ⟨p, hp, e, he, hc⟩ := ih h'
      exact ⟨p, List.mem_cons_of_mem _ hp, e, he, by simp [collect, hj, hc]⟩

theorem foldlM_eq_collect (step : List GoString → GoString → Except Abort (List GoString))
    (judge : GoString → Except Abort Bool)
    (h : ∀ targets p, step targets p =
      match judge p with
      | .error e => .error e
      | .ok b => .ok (if b then targets ++ [p] else targets))
    (paths targets : List GoString) :
    paths.foldlM step targets =
      match collect judge paths with
      | .error e => .error e
      | .ok l => .ok (targets ++ l) := by
  induction paths generalizing targets with
  | nil => simp [collect, pure, Except.pure]
  | cons p ps ih =>
    simp only [List.foldlM_cons, collect, h, bind, Except.bind]
    cases hj : judge p with
    | error e => simp
    | ok b =>
      simp only [ih]
      cases collect judge ps with
      | error e => simp
      | ok l => cases b <;> simp

theorem ageStep_eq_judge (pathPattern : GoString) (age : Int) (targets : List GoString)
    (p : GoString) :
    ageStep pathPattern age targets p =
      match judgeAge pathPattern age p with
      | .error e => .error e
      | .ok b => .ok (if b then targets ++ [p] else targets) := by
  unfold ageStep judgeAge ageKeeps
  cases hg : globMatchPart p pathPattern with
  | error e => rfl
  | ok part =>
    simp only []
    cases ha : Atoi part with
    | none => simp
    | some i => by_cases hi : i ≥ age <;> simp [hi]

theorem findTargetsWithAge_eq_collect (pathPattern : GoString) (paths : List GoString)
    (age : Int) :
    findTargetsWithAge pathPattern paths age = collect (judgeAge pathPattern age) paths := by
  unfold findTargetsWithAge
  rw [foldlM_eq_collect _ _ (ageStep_eq_judge pathPattern age)]
  cases collect (judgeAge pathPattern age) paths <;> simp

theorem timestampStep_eq_judge (env : Env) (pathPattern strptimeFormat : GoString)
    (expired : Time) (targets : List GoString) (p : GoString) :
    timestampStep env pathPattern (convertTimestampFormat strptimeFormat).1
        (convertTimestampFormat strptimeFormat).2 expired targets p =
      match judgeTimestamp env pathPattern strptimeFormat expired p with
      | .error e => .error e
      | .ok b => .ok (if b then targets ++ [p] else targets) := by
  unfold timestampStep judgeTimestamp timestampKeeps
  cases hg : globMatchPart p pathPattern with
  | error e => rfl
  | ok part =>
    simp only []
    change (match capturedInstant env strptimeFormat part with
      | none => Except.ok targets
      | some t => if beforeOrEqual t expired = true then Except.ok (targets ++ [p])
          else Except.ok targets) = _
    cases hq : capturedInstant env strptimeFormat part with
    | none => simp
    | some t =>
      simp only [beforeOrEqual_iff]
      by_cases ht : t ≤ expired <;> simp [ht]

theorem findTargetsWithTimestamp_eq_collect (env : Env) (now : Time)
    (pathPattern : GoString) (paths : List GoString) (strptimeFormat : GoString)
    (expireSec : Int) :
    findTargetsWithTimestamp env now pathPattern paths strptimeFormat expireSec =
      collect (judgeTimestamp env pathPattern strptimeFormat (expiredAt now expireSec)) paths := by
  unfold findTargetsWithTimestamp
  simp only []
  rw [foldlM_eq_collect _ _ (timestampStep_eq_judge env pathPattern strptimeFormat _)]
  cases collect (judgeTimestamp env pathPattern strptimeFormat (expiredAt now expireSec)) paths <;>
    simp

theorem filter_sublist_filter (p q : GoString → Bool) (l : List GoString)
    (h : ∀ x, p x = true → q x = true) : (l.filter p).Sublist (l.filter q) := by
  induction l with
  | nil => simp
  | cons a l ih =>
    simp only [List.filter_cons]
    cases hp : p a with
    | false =>
      cases hq : q a with
      | false => simpa using ih
      | true => simpa using List.Sublist.cons a ih
    | true =>
      rw [h a hp]
      simpa using List.Sublist.cons₂ a ih

/-! ## Aborts of the loops and monotonicity -/

theorem globMatchPart_error_cause (pre suf p : GoString) (e : Abort) (hpre : '*' ∉ pre)
    (h : globMatchPart p (pre ++ '*' :: suf) = .error e) :
    ((¬ pre <+: p ∨ ¬ suf <:+ p) ∧ e = .fatalMismatch p (pre ++ '*' :: suf)) ∨
    (e = .panicSlice ∧ pre <+: p ∧ suf <:+ p ∧ p.length < pre.length + suf.length) := by
  rw [globMatchPart_star p pre suf hpre] at h
  by_cases hm : ¬ pre <+: p ∨ ¬ suf <:+ p
  · rw [if_pos hm] at h
    injection h with h
    exact Or.inl ⟨hm, h.symm⟩
  · rw [if_neg hm] at h
    by_cases hl : pre.length + suf.length ≤ p.length
    · rw [if_pos hl] at h
      cases h
    · rw [if_neg hl] at h
      injection h with h
      refine Or.inr ⟨h.symm, ?_, ?_, by omega⟩
      · by_contra c
        exact hm (Or.inl c)
      · by_contra c
        exact hm (Or.inr c)

theorem globMatchPart_of_mismatch (pre suf p : GoString) (hpre : '*' ∉ pre)
    (hm : ¬ pre <+: p ∨ ¬ suf <:+ p) :
    globMatchPart p (pre ++ '*' :: suf) = .error (.fatalMismatch p (pre ++ '*' :: suf)) := by
  rw [globMatchPart_star p pre suf hpre, if_pos hm]

/-- A loop whose judgement aborts where `globMatchPart` does ends in an abort caused by a
path of the list as soon as one path lacks the prefix or the suffix. -/
theorem collect_mismatch (judge : GoString → Except Abort Bool) (pre suf : GoString)
    (paths : List GoString) (hpre : '*' ∉ pre)
    (hj : ∀ p e, judge p = .error e ↔ globMatchPart p (pre ++ '*' :: suf) = .error e)
    (hbad : ∃ p ∈ paths, ¬ pre <+: p ∨ ¬ suf <:+ p) :
    ∃ e, collect judge paths = .error e ∧ AbortCause pre suf paths e := by
  obtain ⟨p, hp, hm⟩ := hbad
  have h1 : ∃ p ∈ paths, ∃ e, judge p = .error e :=
    ⟨p, hp, _, (hj p _).mpr (globMatchPart_of_mismatch pre suf p hpre hm)⟩
  obtain ⟨q, hq, e, he, hc⟩ := collect_error judge paths h1
  refine ⟨e, hc, ?_⟩
  rcases globMatchPart_error_cause pre suf q e hpre ((hj q e).mp he) with c | c
  · exact Or.inl ⟨q, hq, c.1, c.2⟩
  · exact Or.inr ⟨c.1, q, hq, c.2⟩

theorem judgeAge_error_iff (pathPattern : GoString) (age : Int) (p : GoString) (e : Abort) :
    judgeAge pathPattern age p = .error e ↔ globMatchPart p pathPattern = .error e := by
  unfold judgeAge
  cases globMatchPart p pathPattern <;> simp

theorem judgeTimestamp_error_iff (env : Env) (pathPattern strptimeFormat : GoString)
    (expired : Time) (p : GoString) (e : Abort) :
    judgeTimestamp env pathPattern strptimeFormat expired p = .error e ↔
      globMatchPart p pathPattern = .error e := by
  unfold judgeTimestamp
  cases globMatchPart p pathPattern <;> simp

/-- C15: for a pattern with exactly one `*` and a list of paths of which one does not start
with the prefix or does not end with the suffix, `findTargetsWithAge` and
`findTargetsWithTimestamp` abort and yield no target list, whatever the other paths are: the
mismatching path is not skipped.  The abort is the fatal mismatch error of a mismatching path
of the list, unless a path in which prefix and suffix overlap ended the run before with the
out-of-range panic. -/
theorem findTargets_mismatch_aborts (env : Env) (now : Time) (pre suf : GoString)
    (paths : List GoString) (age : Int) (strptimeFormat : GoString) (expireSec : Int)
    (hpre : '*' ∉ pre) (_hsuf : '*' ∉ suf)
    (hbad : ∃ p ∈ paths, ¬ pre <+: p ∨ ¬ suf <:+ p) :
    (∃ e, findTargetsWithAge (pre ++ "*".toList ++ suf) paths age = .error e ∧
      AbortCause pre suf paths e) ∧
    (∃ e, findTargetsWithTimestamp env now (pre ++ "*".toList ++ suf) paths strptimeFormat
        expireSec = .error e ∧ AbortCause pre suf paths e) := by
  have e : pre ++ "*".toList ++ suf = pre ++ '*' :: suf := by simp
  rw [e, findTargetsWithAge_eq_collect, findTargetsWithTimestamp_eq_collect]
  exact ⟨collect_mismatch _ pre suf paths hpre (judgeAge_error_iff _ age) hbad,
    collect_mismatch _ pre suf paths hpre (judgeTimestamp_error_iff env _ _ _) hbad⟩

/-- Witness of C15: the paths `/a/b/c.5` and `/a/b/c.7` qualify under the age `3`, the path
`/a/x/c.1` between them has another prefix, and the run ends in its fatal error. -/
theorem findTargets_mismatch_aborts_witness :
    '*' ∉ "/a/b/c.".toList ∧ '*' ∉ ([] : GoString) ∧
    findTargetsWithAge "/a/b/c.*".toList ["/a/b/c.5".toList, "/a/b/c.7".toList] 3
      = .ok ["/a/b/c.5".toList, "/a/b/c.7".toList] ∧
    findTargetsWithAge "/a/b/c.*".toList
        ["/a/b/c.5".toList, "/a/x/c.1".toList, "/a/b/c.7".toList] 3
      = .error (.fatalMismatch "/a/x/c.1".toList "/a/b/c.*".toList) ∧
    ∃ e, findTargetsWithTimestamp sampleEnv 0 ("/a/b/c.".toList ++ "*".toList ++ [])
        ["/a/b/c.5".toList, "/a/x/c.1".toList, "/a/b/c.7".toList] "%Y".toList 0 = .error e :=
  ⟨by decide, by decide, by decide, by decide,
    (findTargets_mismatch_aborts sampleEnv 0 "/a/b/c.".toList []
      ["/a/b/c.5".toList, "/a/x/c.1".toList, "/a/b/c.7".toList] 3 "%Y".toList 0
      (by decide) (by decide) ⟨"/a/x/c.1".toList, by decide, Or.inl (by decide)⟩).2.imp
      fun _ h => h.1⟩

theorem isTarget_judgeAge_mono (pathPattern : GoString) (age1 age2 : Int) (h : age1 ≤ age2)
    (p : GoString) (hp : isTarget (judgeAge pathPattern age2) p = true) :
    isTarget (judgeAge pathPattern age1) p = true := by
  unfold isTarget judgeAge ageKeeps at *
  cases hg : globMatchPart p pathPattern with
  | error e => simp [hg] at hp
  | ok part =>
    simp only [hg] at hp ⊢
    cases ha : Atoi part with
    | none => simp [ha] at hp
    | some i =>
      simp only [ha] at hp ⊢
      by_cases h2 : i ≥ age2
      · have h1 : i ≥ age1 := le_trans h h2
        simp [h1]
      · simp [h2] at hp

theorem expiredAt_mono (now1 now2 : Time) (expireSec : Int) (h : now1 ≤ now2) :
    expiredAt now1 expireSec ≤ expiredAt now2 expireSec := by
  unfold expiredAt
  exact add_le_add_right h _

theorem isTarget_judgeTimestamp_mono (env : Env) (pathPattern strptimeFormat : GoString)
    (x1 x2 : Time) (h : x1 ≤ x2) (p : GoString)
    (hp : isTarget (judgeTimestamp env pathPattern strptimeFormat x1) p = true) :
    isTarget (judgeTimestamp env pathPattern strptimeFormat x2) p = true := by
  unfold isTarget judgeTimestamp timestampKeeps at *
  cases hg : globMatchPart p pathPattern with
  | error e => simp [hg] at hp
  | ok part =>
    simp only [hg] at hp ⊢
    cases ha : capturedInstant env strptimeFormat part with
    | none => simp [ha] at hp
    | some t =>
      simp only [ha] at hp ⊢
      by_cases h1 : t ≤ x1
      · have h2 : t ≤ x2 := le_trans h1 h
        simp [h2]
      · simp [h1] at hp

theorem mtimeKeeps_mono (env : Env) (x1 x2 : Time) (h : x1 ≤ x2) (p : GoString)
    (hp : mtimeKeeps env x1 p = true) : mtimeKeeps env x2 p = true := by
  unfold mtimeKeeps at *
  cases hs : env.stat p with
  | none => simp [hs] at hp
  | some m =>
    simp only [hs, decide_eq_true_eq] at hp ⊢
    exact le_trans hp h

/-- C19: the rules are monotone in their thresholds.  When no abort occurs, a larger age
threshold returns a sublist of what a smaller one returns; for a fixed stat function and
`expireSec`, a later instant `now` returns a list of which the one of an earlier instant is a
sublist, for the mtime rule and, when no abort occurs, for the timestamp rule. -/
theorem targets_monotone (env : Env) (pathPattern strptimeFormat : GoString)
    (paths : List GoString) (expireSec age1 age2 : Int) (now1 now2 : Time)
    (hage : age1 ≤ age2) (hnow : now1 ≤ now2) :
    (∀ l1 l2, findTargetsWithAge pathPattern paths age1 = .ok l1 →
      findTargetsWithAge pathPattern paths age2 = .ok l2 → l2.Sublist l1) ∧
    (findTargetsWithMtime env now1 paths expireSec).Sublist
      (findTargetsWithMtime env now2 paths expireSec) ∧
    (∀ l1 l2, findTargetsWithTimestamp env now1 pathPattern paths strptimeFormat expireSec
        = .ok l1 →
      findTargetsWithTimestamp env now2 pathPattern paths strptimeFormat expireSec = .ok l2 →
      l1.Sublist l2) := by
  refine ⟨?_, ?_, ?_⟩
  · intro l1 l2 h1 h2
    rw [findTargetsWithAge_eq_collect] at h1 h2
    rw [(collect_ok _ _ _ h1).1, (collect_ok _ _ _ h2).1]
    exact filter_sublist_filter _ _ paths (isTarget_judgeAge_mono pathPattern age1 age2 hage)
  · rw [findTargetsWithMtime_filter, findTargetsWithMtime_filter]
    exact filter_sublist_filter _ _ paths
      (mtimeKeeps_mono env _ _ (expiredAt_mono now1 now2 expireSec hnow))
  · intro l1 l2 h1 h2
    rw [findTargetsWithTimestamp_eq_collect] at h1 h2
    rw [(collect_ok _ _ _ h1).1, (collect_ok _ _ _ h2).1]
    exact filter_sublist_filter _ _ paths
      (isTarget_judgeTimestamp_mono env pathPattern strptimeFormat _ _
        (expiredAt_mono now1 now2 expireSec hnow))

/-- Witness of C19: the ages `3 ≤ 4` on the paths of `TestFindTargetsWithAge`, and the
instants `0` and twelve hours later on the sample file system. -/
theorem targets_monotone_witness :
    (3 : Int) ≤ 4 ∧ (0 : Time) ≤ 43200000000000 ∧
    (["/a/b/c.4".toList, "/a/b/c.10".toList]).Sublist
      ["/a/b/c.3".toList, "/a/b/c.4".toList, "/a/b/c.10".toList] ∧
    (findTargetsWithMtime sampleEnv 0 ["f".toList, "g".toList] 43200).Sublist
      (findTargetsWithMtime sampleEnv 43200000000000 ["f".toList, "g".toList] 43200) :=
  ⟨by decide, by decide,
    (targets_monotone sampleEnv "/a/b/c.*".toList []
      ["/a/b/c.1".toList, "/a/b/c.2".toList, "/a/b/c.3".toList, "/a/b/c.4".toList,
        "/a/b/c.10".toList] 43200 3 4 0 43200000000000 (by decide) (by decide)).1
      _ _ (by decide) (by decide),
    (targets_monotone sampleEnv "c.*".toList "%Y".toList ["f".toList, "g".toList]
      43200 3 4 0 43200000000000 (by decide) (by decide)).2.1⟩

/-! ## `Index` and first occurrences -/

theorem indexAux_spec (sub : GoString) (hsub : sub ≠ []) (s : GoString) (i : Nat) :
    (indexAux sub s i = -1 ∧ ∀ j, ¬ OccursAt sub s j) ∨
    (∃ k : Nat, indexAux sub s i = ((i + k : Nat) : Int) ∧ FirstOccurrenceAt sub s k) := by
  induction s generalizing i with
  | nil =>
    left
    refine ⟨by simp [indexAux, hsub], ?_⟩
    intro j h
    have h' : sub <+: [] := by simpa [OccursAt] using h
    exact hsub (List.prefix_nil.mp h')
  | cons c s ih =>
    by_cases hp : sub.isPrefixOf (c :: s) = true
    · right
      refine ⟨0, by simp [indexAux, hp], ?_, ?_⟩
      · simpa [OccursAt] using List.isPrefixOf_iff_prefix.mp hp
      · intro j hj
        omega
    · have h0 : ¬ OccursAt sub (c :: s) 0 := by
        intro h
        exact hp (List.isPrefixOf_iff_prefix.mpr (by simpa [OccursAt] using h))
      have hstep : indexAux sub (c :: s) i = indexAux sub s (i + 1) := by
        simp [indexAux, hp]
      rcases ih (i + 1) with ⟨h1, h2⟩ | ⟨k, h1, h2, h3⟩
      · left
        refine ⟨by rw [hstep, h1], ?_⟩
        intro j
        cases j with
        | zero => exact h0
        | succ j => simpa [OccursAt] using h2 j
      · right
        refine ⟨k + 1, ?_, ?_, ?_⟩
        · rw [hstep, h1]
          congr 1
          omega
        · simpa [OccursAt] using h2
        · intro j hj
          cases j with
          | zero => exact h0
          | succ j => simpa [OccursAt] using h3 j (by omega)

theorem firstOccurrenceAt_unique (sub s : GoString) (i j : Nat)
    (hi : FirstOccurrenceAt sub s i) (hj : FirstOccurrenceAt sub s j) : i = j := by
  rcases Nat.lt_trichotomy i j with h | h | h
  · exact absurd hi.1 (hj.2 i h)
  · exact h
  · exact absurd hj.1 (hi.2 j h)

/-- For a non-empty `sub`, `strings.Index` is positive exactly when the first occurrence of
`sub` is at a positive index. -/
theorem Index_pos_iff (sub : GoString) (hsub : sub ≠ []) (s : GoString) :
    Index s sub > 0 ↔ ∃ i, 0 < i ∧ FirstOccurrenceAt sub s i := by
  unfold Index
  rcases indexAux_spec sub hsub s 0 with ⟨h1, h2⟩ | ⟨k, h1, h2⟩
  · rw [h1]
    constructor
    · intro h
      omega
    · rintro ⟨i, _, hi⟩
      exact absurd hi.1 (h2 i)
  · rw [h1]
    constructor
    · intro h
      exact ⟨k, by omega, h2⟩
    · rintro ⟨i, hi, hf⟩
      have e := firstOccurrenceAt_unique sub s i k hf h2
      omega

/-- C17: the boolean of `convertTimestampFormat` is true exactly when the first occurrence
of `%z` or the first occurrence of `%Z` in the format lies at an index greater than `0`; in
particular it is false for every format that begins with `%z` or `%Z` and in which the
first occurrences of `%z` and of `%Z`, where there is one, are at index `0`. -/
theorem containsTimezone_iff_first_occurrence_pos (format : GoString) :
    ((convertTimestampFormat format).2 = true ↔
      ((∃ i, 0 < i ∧ FirstOccurrenceAt "%z".toList format i) ∨
        (∃ i, 0 < i ∧ FirstOccurrenceAt "%Z".toList format i))) ∧
    (("%z".toList <+: format ∨ "%Z".toList <+: format) →
      (∀ i, FirstOccurrenceAt "%z".toList format i → i = 0) →
      (∀ i, FirstOccurrenceAt "%Z".toList format i → i = 0) →
      (convertTimestampFormat format).2 = false) := by
  have hiff : (convertTimestampFormat format).2 = true ↔
      ((∃ i, 0 < i ∧ FirstOccurrenceAt "%z".toList format i) ∨
        (∃ i, 0 < i ∧ FirstOccurrenceAt "%Z".toList format i)) := by
    rw [← Index_pos_iff "%z".toList (by decide) format,
      ← Index_pos_iff "%Z".toList (by decide) format]
    unfold convertTimestampFormat
    simp
  refine ⟨hiff, ?_⟩
  intro _ hz hZ
  cases hb : (convertTimestampFormat format).2 with
  | false => rfl
  | true =>
    rcases hiff.mp hb with ⟨i, hi, hf⟩ | ⟨i, hi, hf⟩
    · have := hz i hf
      omega
    · have := hZ i hf
      omega

/-- Witness of C17: the format `%Z%Y%m%d` begins with `%Z` and holds no `%z`; the format
`%Y%m%d%H%%%Z` of the test has its first `%Z` at index `10`. -/
theorem containsTimezone_iff_first_occurrence_pos_witness :
    (convertTimestampFormat "%Z%Y%m%d".toList).2 = false ∧
    (convertTimestampFormat "%Y%m%d%H%%%Z".toList).2 = true := by
  constructor
  · apply (containsTimezone_iff_first_occurrence_pos "%Z%Y%m%d".toList).2 (Or.inr (by decide))
    · intro i hi
      rcases indexAux_spec "%z".toList (by decide) "%Z%Y%m%d".toList 0 with ⟨_, h2⟩ | ⟨k, h1, _⟩
      · exact absurd hi.1 (h2 i)
      · have e : indexAux "%z".toList "%Z%Y%m%d".toList 0 = -1 := by decide
        rw [e] at h1
        omega
    · intro i hi
      have h0 : FirstOccurrenceAt "%Z".toList "%Z%Y%m%d".toList 0 := by decide
      exact firstOccurrenceAt_unique _ _ i 0 hi h0
  · apply (containsTimezone_iff_first_occurrence_pos "%Y%m%d%H%%%Z".toList).1.mpr
    exact Or.inr ⟨10, by decide, by decide⟩

/-! ## The order of the replacements -/

theorem timeFormatMapping_eq_map :
    timeFormatMapping = (directiveLetters ++ ['%']).map tableEntry := by
  decide

theorem replaceAux_loose_step (X : Char) (done : List Char)
    (hclean : ∀ y ∈ done, y = '%' ∨ '%' ∉ translateDirective y)
    (tl : GoString) (htl : tl = [] ∨ tl = ['%'])
    (ts : List Token) (hv : ∀ t ∈ ts, t.loose = true) :
    replaceAux ['%', X] (translateDirective X) 0 (ts.flatMap (render done) ++ tl) =
      ts.flatMap (render (X :: done)) ++ tl := by
  induction ts with
  | nil =>
    rcases htl with e | e <;> subst e <;> simp [replaceAux, List.isPrefixOf]
  | cons t rest ih =>
    have ih' := ih (fun t ht => hv t (List.mem_cons_of_mem _ ht))
    have hvt := hv t (List.mem_cons_self _ _)
    cases t with
    | lit c =>
      have hc : '%' ∉ [c] := by
        simp only [Token.loose, decide_eq_true_eq] at hvt
        simpa using fun e : '%' = c => hvt e.symm
      simp only [List.flatMap_cons, render, List.append_assoc]
      rw [replaceAux_skip '%' [X] _ [c] _ hc, ih']
    | directive y =>
      have hy0 : y ≠ '%' := by simpa [Token.loose] using hvt
      by_cases hy : y ∈ done
      · have hy' : y ∈ X :: done := List.mem_cons_of_mem _ hy
        have hcl : '%' ∉ translateDirective y := by
          rcases hclean y hy with c | c
          · exact absurd c hy0
          · exact c
        simp only [List.flatMap_cons, render, hy, hy', if_true, List.append_assoc]
        rw [replaceAux_skip '%' [X] _ _ _ hcl, ih']
      · by_cases hyX : y = X
        · subst hyX
          simp only [List.flatMap_cons, render, hy, if_false, List.mem_cons, true_or, if_true,
            List.cons_append, List.nil_append, replaceAux, List.isPrefixOf, beq_self_eq_true,
            Bool.and_self, List.length_cons, List.length_nil, List.append_assoc]
          rw [ih']
        · have hy' : y ∉ X :: done := by
            simp only [List.mem_cons, not_or]
            exact ⟨hyX, hy⟩
          have hXy : (X == y) = false := by simpa using fun e : X = y => hyX e.symm
          have hyp : '%' ∉ [y] := by simpa using fun e : '%' = y => hy0 e.symm
          simp only [List.flatMap_cons, render, hy, hy', if_false, List.cons_append,
            List.nil_append, List.append_assoc]
          rw [replaceAux]
          simp only [List.isPrefixOf, beq_self_eq_true, hXy, Bool.false_and, Bool.and_false,
            Bool.false_eq_true, if_false]
          have e := replaceAux_skip '%' [X] (translateDirective X) [y]
            (rest.flatMap (render done) ++ tl) hyp
          simp only [List.cons_append, List.nil_append] at e
          rw [e, ih']

theorem replaceWith_loose (tl : GoString) (htl : tl = [] ∨ tl = ['%'])
    (ts : List Token) (hv : ∀ t ∈ ts, t.loose = true)
    (table : List (GoString × GoString)) (hmem : ∀ pr ∈ table, pr ∈ timeFormatMapping)
    (done : List Char) (hclean : ∀ y ∈ done, y = '%' ∨ '%' ∉ translateDirective y) :
    ∃ done', (∀ y, y ∈ done' ↔ y ∈ done ∨ tableEntry y ∈ table) ∧
      replaceWith table (ts.flatMap (render done) ++ tl) = ts.flatMap (render done') ++ tl := by
  induction table generalizing done with
  | nil => exact ⟨done, by simp, rfl⟩
  | cons pr table ih =>
    have hpr := hmem pr (List.mem_cons_self _ _)
    rw [timeFormatMapping_eq_map, List.mem_map] at hpr
    obtain ⟨X, hX, hXe⟩ := hpr
    have hall : ∀ y ∈ directiveLetters ++ ['%'], y = '%' ∨ '%' ∉ translateDirective y := by
      decide
    have hclX : X = '%' ∨ '%' ∉ translateDirective X := hall X hX
    have hclean' : ∀ y ∈ X :: done, y = '%' ∨ '%' ∉ translateDirective y := by
      intro y hy
      rcases List.mem_cons.mp hy with c | c
      · rw [c]
        exact hclX
      · exact hclean y c
    obtain ⟨done', h1, h2⟩ := ih (fun q hq => hmem q (List.mem_cons_of_mem _ hq)) (X :: done) hclean'
    refine ⟨done', ?_, ?_⟩
    · intro y
      rw [h1, List.mem_cons, List.mem_cons, ← hXe]
      constructor
      · rintro ((c | c) | c)
        · exact Or.inr (Or.inl (by rw [c]))
        · exact Or.inl c
        · exact Or.inr (Or.inr c)
      · rintro (c | c | c)
        · exact Or.inl (Or.inr c)
        · have : y = X := by
            simp only [tableEntry, Prod.mk.injEq, List.cons.injEq, true_and, and_true] at c
            exact c.1
          exact Or.inl (Or.inl this)
        · exact Or.inr c
    · have hstep : replaceWith (pr :: table) (ts.flatMap (render done) ++ tl) =
          replaceWith table (ts.flatMap (render (X :: done)) ++ tl) := by
        rw [← replaceAux_loose_step X done hclean tl htl ts hv, ← hXe]
        simp [replaceWith, replaceAll, tableEntry]
      rw [hstep, h2]

theorem render_congr (d1 d2 : List Char) (h : ∀ y, y ∈ d1 ↔ y ∈ d2) (t : Token) :
    render d1 t = render d2 t := by
  cases t with
  | lit c => rfl
  | directive y =>
    by_cases hy : y ∈ d1
    · simp [render, hy, (h y).mp hy]
    · have hy2 : y ∉ d2 := fun c => hy ((h y).mpr c)
      simp [render, hy, hy2]

theorem not_infix_tail (c : Char) (f : GoString) (h : ¬ "%%".toList <:+: c :: f) :
    ¬ "%%".toList <:+: f := by
  intro hf
  exact h (hf.trans (List.suffix_cons c f).isInfix)

/-- A format without `%%` is a list of loose tokens, followed by at most one `%`. -/
theorem exists_loose_tokens :
    ∀ f : GoString, ¬ "%%".toList <:+: f →
      ∃ (ts : List Token) (tl : GoString), f = ts.flatMap (render []) ++ tl ∧
        (∀ t ∈ ts, t.loose = true) ∧ (tl = [] ∨ tl = ['%'])
  | [], _ => ⟨[], [], rfl, by simp, Or.inl rfl⟩
  | [c], _ => by
    by_cases hc : c = '%'
    · exact ⟨[], ['%'], by simp [hc], by simp, Or.inr rfl⟩
    · exact ⟨[.lit c], [], by simp [render], by simp [Token.loose, hc], Or.inl rfl⟩
  | c1 :: c2 :: rest, h => by
    by_cases hc : c1 = '%'
    · have h2 : c2 ≠ '%' := by
        intro e
        apply h
        rw [hc, e]
        exact (List.prefix_append ['%', '%'] rest).isInfix
      obtain ⟨ts, tl, e, hv, htl⟩ :=
        exists_loose_tokens rest (not_infix_tail c2 rest (not_infix_tail c1 (c2 :: rest) h))
      refine ⟨.directive c2 :: ts, tl, ?_, ?_, htl⟩
      · rw [e, hc]
        simp [render]
      · intro t ht
        rcases List.mem_cons.mp ht with c | c
        · rw [c]
          simp [Token.loose, h2]
        · exact hv t c
    · obtain ⟨ts, tl, e, hv, htl⟩ :=
        exists_loose_tokens (c2 :: rest) (not_infix_tail c1 (c2 :: rest) h)
      refine ⟨.lit c1 :: ts, tl, ?_, ?_, htl⟩
      · rw [e]
        simp [render]
      · intro t ht
        rcases List.mem_cons.mp ht with c | c
        · rw [c]
          simp [Token.loose, hc]
        · exact hv t c

/-- On a format without `%%`, two tables with the same entries, all of them entries of
`timeFormatMapping`, give the same result in whatever order they are run. -/
theorem replaceWith_order (format : GoString) (hf : ¬ "%%".toList <:+: format)
    (t1 t2 : List (GoString × GoString)) (h1 : ∀ pr ∈ t1, pr ∈ timeFormatMapping)
    (h12 : ∀ pr, pr ∈ t1 ↔ pr ∈ t2) :
    replaceWith t1 format = replaceWith t2 format := by
  obtain ⟨ts, tl, e, hv, htl⟩ := exists_loose_tokens format hf
  have h2 : ∀ pr ∈ t2, pr ∈ timeFormatMapping := fun pr hpr => h1 pr ((h12 pr).mpr hpr)
  obtain ⟨d1, hd1, r1⟩ := replaceWith_loose tl htl ts hv t1 h1 [] (by simp)
  obtain ⟨d2, hd2, r2⟩ := replaceWith_loose tl htl ts hv t2 h2 [] (by simp)
  rw [e, r1, r2]
  have hd : ∀ y, y ∈ d1 ↔ y ∈ d2 := by
    intro y
    rw [hd1, hd2, h12]
  have hr : render d1 = render d2 := funext (render_congr d1 d2 hd)
  rw [hr]

/-- C16 (as stated, refuted): the table in reverse order is a permutation of the table; on
the format `%%d` it first turns `%%` into `%` and then the new `%d` into `02`, while the table
order turns the `%d` inside `%%d` into `02` first and gives `%02`. -/
theorem replacement_order_counterexample :
    timeFormatMapping.reverse.Perm timeFormatMapping ∧
    replaceWith timeFormatMapping.reverse "%%d".toList = "02".toList ∧
    (convertTimestampFormat "%%d".toList).1 = "%02".toList ∧
    ¬ (replaceWith timeFormatMapping.reverse "%%d".toList
      = (convertTimestampFormat "%%d".toList).1) :=
  ⟨List.reverse_perm _, by decide, by decide, by decide⟩

/-- C16 (amended): for every format string in which `%%` does not occur, the order of the
eleven replacements does not matter: replacing all occurrences of each directive in any
permutation of the table gives the same string as the table order of
`convertTimestampFormat`. -/
theorem replacement_order_irrelevant (format : GoString) (hf : ¬ "%%".toList <:+: format)
    (table : List (GoString × GoString)) (hperm : table.Perm timeFormatMapping) :
    replaceWith table format = (convertTimestampFormat format).1 := by
  have e : (convertTimestampFormat format).1 = replaceWith timeFormatMapping format := rfl
  rw [e]
  exact replaceWith_order format hf table timeFormatMapping
    (fun pr hpr => hperm.mem_iff.mp hpr) (fun pr => hperm.mem_iff)

/-- Witness of C16: the first format of `TestConvertTimestampFormat` under the reversed
table. -/
theorem replacement_order_irrelevant_witness :
    ¬ "%%".toList <:+: "%Y-%m-%d_%H%M%S".toList ∧
    timeFormatMapping.reverse.Perm timeFormatMapping ∧
    replaceWith timeFormatMapping.reverse "%Y-%m-%d_%H%M%S".toList
      = (convertTimestampFormat "%Y-%m-%d_%H%M%S".toList).1 :=
  ⟨by decide, List.reverse_perm _,
    replacement_order_irrelevant "%Y-%m-%d_%H%M%S".toList (by decide)
      timeFormatMapping.reverse (List.reverse_perm _)⟩

/-! ## `findTargets` on a part of the files -/

theorem lookup_filter (files : List (GoString × Time)) (keep : GoString → Bool) (p : GoString)
    (hp : keep p = true) :
    (files.filter (fun f => keep f.1)).lookup p = files.lookup p := by
  induction files with
  | nil => rfl
  | cons f files ih =>
    obtain ⟨q, m⟩ := f
    by_cases hq : keep q = true
    · simp only [List.filter_cons, hq, if_true, List.lookup_cons, ih]
    · have hne : (p == q) = false := by
        simp only [beq_eq_false_iff_ne, ne_eq]
        intro e
        exact hq (e ▸ hp)
      simp only [List.filter_cons, hq, Bool.false_eq_true, if_false, List.lookup_cons, hne, ih]

theorem envOf_glob_filter (sys : System) (files : List (GoString × Time))
    (keep : GoString → Bool) (pattern : GoString) :
    (envOf sys (files.filter (fun f => keep f.1))).glob pattern =
      ((envOf sys files).glob pattern).map (fun paths => paths.filter keep) := by
  unfold envOf
  by_cases hb : sys.badPattern pattern = true
  · simp [hb]
  · simp only [hb, Bool.false_eq_true, if_false, Option.map_some', Option.some.injEq]
    rw [List.filter_map, List.filter_filter, List.filter_filter]
    congr 1
    apply List.filter_congr
    intro f _
    simp [Bool.and_comm]

theorem collect_restrict (judge : GoString → Except Abort Bool) (paths ts : List GoString)
    (keep : GoString → Bool) (h : collect judge paths = .ok ts) :
    collect judge (paths.filter keep) = .ok (ts.filter keep) := by
  obtain ⟨h1, h2⟩ := collect_ok judge paths ts h
  rw [collect_of_ok judge (paths.filter keep)
    (fun p hp => h2 p (List.mem_filter.mp hp).1), h1, List.filter_filter, List.filter_filter]
  congr 1
  apply List.filter_congr
  intro p _
  simp [Bool.and_comm]

theorem mtimeKeeps_filter (sys : System) (files : List (GoString × Time))
    (keep : GoString → Bool) (expired : Time) (p : GoString) (hp : keep p = true) :
    mtimeKeeps (envOf sys (files.filter (fun f => keep f.1))) expired p =
      mtimeKeeps (envOf sys files) expired p := by
  unfold mtimeKeeps envOf
  simp only [lookup_filter files keep p hp]

theorem dispatchRule_restrict (sys : System) (files : List (GoString × Time))
    (keep : GoString → Bool) (c : Config) (now : Time) (paths ts : List GoString)
    (h : dispatchRule (envOf sys files) c now paths = .ok ts) :
    dispatchRule (envOf sys (files.filter (fun f => keep f.1))) c now (paths.filter keep) =
      .ok (ts.filter keep) := by
  unfold dispatchRule at h ⊢
  by_cases h1 : c.Rule = "age".toList
  · rw [if_pos h1] at h ⊢
    rw [findTargetsWithAge_eq_collect] at h ⊢
    exact collect_restrict _ paths ts keep h
  · rw [if_neg h1] at h ⊢
    by_cases h2 : c.Rule = "timestamp".toList
    · rw [if_pos h2] at h ⊢
      rw [findTargetsWithTimestamp_eq_collect] at h ⊢
      exact collect_restrict _ paths ts keep h
    · rw [if_neg h2] at h ⊢
      by_cases h3 : c.Rule = "mtime".toList
      · rw [if_pos h3] at h ⊢
        injection h with h
        rw [← h, findTargetsWithMtime_filter, findTargetsWithMtime_filter, List.filter_filter,
          List.filter_filter]
        congr 1
        apply List.filter_congr
        intro p _
        by_cases hk : keep p = true
        · rw [mtimeKeeps_filter sys files keep _ p hk, Bool.and_comm]
        · simp [hk]
      · rw [if_neg h3] at h
        cases h

/-- Removing files by their path restricts the targets of a configuration to the paths that
are left, and brings no abort. -/
theorem findTargets_restrict (sys : System) (files : List (GoString × Time))
    (keep : GoString → Bool) (c : Config) (now : Time) (ts : List GoString)
    (h : findTargets (envOf sys files) c now = .ok ts) :
    findTargets (envOf sys (files.filter (fun f => keep f.1))) c now = .ok (ts.filter keep) := by
  unfold findTargets at h ⊢
  cases hw : checkWildcard c.PathPattern with
  | error e => simp [hw] at h
  | ok u =>
    simp only [hw] at h ⊢
    rw [envOf_glob_filter]
    cases hg : (envOf sys files).glob c.PathPattern with
    | none => simp [hg] at h
    | some paths =>
      simp only [hg, Option.map_some'] at h ⊢
      exact dispatchRule_restrict sys files keep c now paths ts h

/-! ## The loops of `run` -/

theorem removeTarget_calls (sys : System) (w : World) (t : GoString) :
    (removeTarget sys w t).removeCalls = w.removeCalls ++ [t] := by
  unfold removeTarget
  cases osRemove sys w.files t <;> rfl

theorem removeTarget_files (sys : System) (w : World) (t : GoString) :
    (removeTarget sys w t).files =
      w.files.filter (fun f => !(sys.removable f.1 && f.1 == t)) := by
  unfold removeTarget osRemove
  by_cases hr : sys.removable t = true
  · by_cases he : w.files.any (fun f => f.1 == t) = true
    · simp only [hr, he, Bool.and_self, if_true]
      apply List.filter_congr
      intro f _
      by_cases hf : f.1 = t
      · simp [hf, hr]
      · have hne : (f.1 == t) = false := by simpa using hf
        simp [hne, bne]
    · simp only [hr, he, Bool.and_false, Bool.false_eq_true, if_false]
      symm
      apply List.filter_eq_self.mpr
      intro f hf
      have hne : (f.1 == t) = false := by
        by_contra c
        apply he
        exact List.any_eq_true.mpr ⟨f, hf, by simpa using c⟩
      simp [hne]
  · simp only [hr, Bool.false_and, Bool.false_eq_true, if_false]
    symm
    apply List.filter_eq_self.mpr
    intro f _
    by_cases hf : f.1 = t
    · simp [hf, hr]
    · simp [hf]

/-- Every target is passed to `os.Remove`, in order, whether the removals succeed or not. -/
theorem removeTargets_calls (sys : System) (w : World) (ts : List GoString) :
    (removeTargets sys w ts).removeCalls = w.removeCalls ++ ts := by
  unfold removeTargets
  induction ts generalizing w with
  | nil => simp
  | cons t ts ih => simp [List.foldl_cons, ih, removeTarget_calls]

theorem removeTargets_files (sys : System) (w : World) (ts : List GoString) :
    (removeTargets sys w ts).files =
      w.files.filter (fun f => !(sys.removable f.1 && ts.contains f.1)) := by
  unfold removeTargets
  induction ts generalizing w with
  | nil => simp
  | cons t ts ih =>
    simp only [List.foldl_cons, ih, removeTarget_files, List.filter_filter]
    apply List.filter_congr
    intro f _
    by_cases hr : sys.removable f.1 = true
    · by_cases hf : f.1 = t
      · rw [hf] at hr
        simp [hr, hf]
      · have hne : (f.1 == t) = false := by simpa using hf
        simp [hr, hne, hf, List.contains_cons]
    · simp [hr]

theorem contains_filter (l : List GoString) (keep : GoString → Bool) (p : GoString) :
    (l.filter keep).contains p = (l.contains p && keep p) := by
  rw [Bool.eq_iff_iff]
  simp [List.mem_filter]

theorem findTargets_of_toBool (env : Env) (c : Config) (now : Time)
    (h : (findTargets env c now).toBool = true) : ∃ ts, findTargets env c now = .ok ts := by
  cases hf : findTargets env c now with
  | error e => simp [hf, Except.toBool] at h
  | ok ts => exact ⟨ts, rfl⟩

/-- The outer loop of `run` from a state whose files are the files `files0` without the
paths in `gone`, when no configuration aborts on `files0`: the loop does not abort, it removes
the removable targets, and it passes every target that is not gone to `os.Remove`. -/
theorem sweep_spec (sys : System) (now : Time) (files0 : List (GoString × Time))
    (cs : List Config)
    (hok : ∀ c ∈ cs, (findTargets (envOf sys files0) c now).toBool = true)
    (w : World) (gone : GoString → Bool)
    (hw : w.files = files0.filter (fun f => !gone f.1)) :
    (sweep sys now w cs).2 = none ∧
    (sweep sys now w cs).1.files = files0.filter
      (fun f => !(gone f.1 || (sys.removable f.1 && selected sys files0 now cs f.1))) ∧
    w.removeCalls <+: (sweep sys now w cs).1.removeCalls ∧
    (∀ c ∈ cs, ∀ t ∈ targetsOf sys files0 now c, gone t = false →
      t ∈ (sweep sys now w cs).1.removeCalls) := by
  induction cs generalizing w gone with
  | nil =>
    refine ⟨rfl, ?_, List.prefix_refl _, ?_⟩
    · simp [sweep, selected, hw]
    · intro c hc
      simp at hc
  | cons c cs ih =>
    obtain ⟨ts0, h0⟩ := findTargets_of_toBool _ c now (hok c (List.mem_cons_self _ _))
    have htg : targetsOf sys files0 now c = ts0 := by simp [targetsOf, h0]
    have hcur : findTargets (envOf sys w.files) c now
        = .ok (ts0.filter (fun p => !gone p)) := by
      rw [hw]
      exact findTargets_restrict sys files0 (fun p => !gone p) c now ts0 h0
    have hstep : sweep sys now w (c :: cs) =
        sweep sys now (removeTargets sys w (ts0.filter (fun p => !gone p))) cs := by
      simp [sweep, hcur]
    have hfiles : (removeTargets sys w (ts0.filter (fun p => !gone p))).files =
        files0.filter (fun f => !((gone f.1 || (sys.removable f.1 && ts0.contains f.1)))) := by
      rw [removeTargets_files, hw, List.filter_filter]
      apply List.filter_congr
      intro f _
      rw [contains_filter]
      cases gone f.1 <;> cases sys.removable f.1 <;> cases ts0.contains f.1 <;> rfl
    obtain ⟨i1, i2, i3, i4⟩ := ih (fun c hc => hok c (List.mem_cons_of_mem _ hc))
      (removeTargets sys w (ts0.filter (fun p => !gone p)))
      (fun p => gone p || (sys.removable p && ts0.contains p)) hfiles
    have hcalls := removeTargets_calls sys w (ts0.filter (fun p => !gone p))
    rw [hstep]
    refine ⟨i1, ?_, ?_, ?_⟩
    · rw [i2]
      apply List.filter_congr
      intro f _
      have hsel : selected sys files0 now (c :: cs) f.1 =
          (ts0.contains f.1 || selected sys files0 now cs f.1) := by
        simp [selected, htg]
      rw [hsel]
      cases gone f.1 <;> cases sys.removable f.1 <;> cases ts0.contains f.1 <;>
        cases selected sys files0 now cs f.1 <;> rfl
    · exact (List.prefix_append _ _).trans (hcalls ▸ i3)
    · intro c' hc' t ht hg
      have hin : ∀ t ∈ ts0, gone t = false →
          t ∈ (sweep sys now (removeTargets sys w (ts0.filter (fun p => !gone p))) cs).1.removeCalls := by
        intro t ht hg
        apply i3.subset
        rw [hcalls]
        apply List.mem_append_right
        exact List.mem_filter.mpr ⟨ht, by simp [hg]⟩
      rcases List.mem_cons.mp hc' with e | e
      · rw [e, htg] at ht
        exact hin t ht hg
      · by_cases hg' : (gone t || (sys.removable t && ts0.contains t)) = false
        · exact i4 c' e t ht hg'
        · have hmem : t ∈ ts0 := by
            simp only [hg, Bool.false_or, Bool.and_eq_false_imp, not_forall,
              Bool.not_eq_false] at hg'
            obtain ⟨_, h2⟩ := hg'
            simpa using h2
          exact hin t hmem hg

theorem sweep_noop (sys : System) (now : Time) (w : World) (cs : List Config)
    (h : ∀ c ∈ cs, findTargets (envOf sys w.files) c now = .ok []) :
    sweep sys now w cs = (w, none) := by
  induction cs with
  | nil => rfl
  | cons c cs ih =>
    have hc := h c (List.mem_cons_self _ _)
    simp only [sweep, hc, removeTargets, List.foldl_nil]
    exact ih (fun c hc => h c (List.mem_cons_of_mem _ hc))

theorem run_eq_sweep (sys : System) (confDir : GoString) (now : Time) (w : World)
    (configs : List Config) (hconf : readConfigList sys confDir = .ok configs) :
    run sys confDir now w = sweep sys now w configs := by
  simp [run, hconf]

/-! ## The claims on `run` -/

/-- C11: on a file system where every removal succeeds and no configuration aborts, `run`
does not abort and the files after it are exactly the files before it without those that
`findTargets` selects for some configuration: no selected path is left, and every file that is
not selected is still there with its modification time. -/
theorem run_removes_exactly_the_targets (sys : System) (confDir : GoString) (now : Time)
    (configs : List Config) (w : World)
    (hconf : readConfigList sys confDir = .ok configs)
    (hremove : ∀ p, sys.removable p = true)
    (hok : ∀ c ∈ configs, (findTargets (envOf sys w.files) c now).toBool = true) :
    (run sys confDir now w).2 = none ∧
    (run sys confDir now w).1.files
      = w.files.filter (fun f => !selected sys w.files now configs f.1) ∧
    (∀ g ∈ (run sys confDir now w).1.files, selected sys w.files now configs g.1 = false) ∧
    (∀ f ∈ w.files, selected sys w.files now configs f.1 = false →
      f ∈ (run sys confDir now w).1.files) := by
  have hw : w.files = w.files.filter (fun f => !(fun _ : GoString => false) f.1) := by simp
  obtain ⟨h1, h2, _, _⟩ := sweep_spec sys now w.files configs hok w (fun _ => false) hw
  have hfiles : (run sys confDir now w).1.files
      = w.files.filter (fun f => !selected sys w.files now configs f.1) := by
    rw [run_eq_sweep sys confDir now w configs hconf, h2]
    apply List.filter_congr
    intro f _
    simp [hremove]
  refine ⟨?_, hfiles, ?_, ?_⟩
  · rw [run_eq_sweep sys confDir now w configs hconf]
    exact h1
  · intro g hg
    rw [hfiles, List.mem_filter] at hg
    simpa using hg.2
  · intro f hf hs
    rw [hfiles, List.mem_filter]
    exact ⟨hf, by simp [hs]⟩

/-- Witness of C11: the three configurations and the files of `TestRun`, at 16:00 of
2018-06-18; the files left are those that the test asserts to exist. -/
theorem run_removes_exactly_the_targets_witness :
    readConfigList (sampleSystem fun _ => true) "conf".toList = .ok sampleConfigs ∧
    (∀ c ∈ sampleConfigs,
      (findTargets (envOf (sampleSystem fun _ => true) sampleWorld.files) c
        (clock 1 16 0 0)).toBool = true) ∧
    (run (sampleSystem fun _ => true) "conf".toList (clock 1 16 0 0) sampleWorld).2 = none ∧
    (run (sampleSystem fun _ => true) "conf".toList (clock 1 16 0 0) sampleWorld).1.files
      = sampleSurvivors :=
  ⟨by decide, by decide,
    (run_removes_exactly_the_targets (sampleSystem fun _ => true) "conf".toList
      (clock 1 16 0 0) sampleConfigs sampleWorld (by decide) (fun _ => rfl) (by decide)).1,
    (run_removes_exactly_the_targets (sampleSystem fun _ => true) "conf".toList
      (clock 1 16 0 0) sampleConfigs sampleWorld (by decide) (fun _ => rfl) (by decide)).2.1.trans
      (by decide)⟩

/-- C12: on a file system where every removal succeeds and no configuration aborts, a second
`run` with the same `now` finds no target: it does not abort, calls `os.Remove` for no file
and leaves the state of the first run as it is. -/
theorem run_twice (sys : System) (confDir : GoString) (now : Time)
    (configs : List Config) (w : World)
    (hconf : readConfigList sys confDir = .ok configs)
    (hremove : ∀ p, sys.removable p = true)
    (hok : ∀ c ∈ configs, (findTargets (envOf sys w.files) c now).toBool = true) :
    run sys confDir now (run sys confDir now w).1 = ((run sys confDir now w).1, none) := by
  have hw : w.files = w.files.filter (fun f => !(fun _ : GoString => false) f.1) := by simp
  obtain ⟨_, h2, _, _⟩ := sweep_spec sys now w.files configs hok w (fun _ => false) hw
  have hfiles : (run sys confDir now w).1.files
      = w.files.filter (fun f => (fun p => !selected sys w.files now configs p) f.1) := by
    rw [run_eq_sweep sys confDir now w configs hconf, h2]
    apply List.filter_congr
    intro f _
    simp [hremove]
  rw [run_eq_sweep sys confDir now _ configs hconf]
  apply sweep_noop
  intro c hc
  obtain ⟨ts0, h0⟩ := findTargets_of_toBool _ c now (hok c hc)
  have hr := findTargets_restrict sys w.files
    (fun p => !selected sys w.files now configs p) c now ts0 h0
  rw [hfiles]
  refine hr.trans ?_
  congr 1
  apply List.filter_eq_nil_iff.mpr
  intro t ht
  have hs : selected sys w.files now configs t = true := by
    unfold selected
    rw [List.any_eq_true]
    exact ⟨c, hc, by simp [targetsOf, h0, ht]⟩
  simp [hs]

/-- Witness of C12: the sweep of `TestRun`, run twice. -/
theorem run_twice_witness :
    readConfigList (sampleSystem fun _ => true) "conf".toList = .ok sampleConfigs ∧
    (∀ c ∈ sampleConfigs,
      (findTargets (envOf (sampleSystem fun _ => true) sampleWorld.files) c
        (clock 1 16 0 0)).toBool = true) ∧
    (run (sampleSystem fun _ => true) "conf".toList (clock 1 16 0 0)
      (run (sampleSystem fun _ => true) "conf".toList (clock 1 16 0 0) sampleWorld).1).1.files
      = sampleSurvivors := by
  refine ⟨by decide, by decide, ?_⟩
  rw [run_twice (sampleSystem fun _ => true) "conf".toList (clock 1 16 0 0) sampleConfigs
    sampleWorld (by decide) (fun _ => rfl) (by decide)]
  decide

/-- C14: on a file system where removals may fail and no configuration aborts, `run` does
not abort; the targets of a configuration are passed to `os.Remove` one after the other, in
order, whether the removals succeed or not; every target of every configuration is passed to
`os.Remove`; and exactly the targets whose removal succeeds are gone. -/
theorem run_attempts_every_target (sys : System) (confDir : GoString) (now : Time)
    (configs : List Config) (w : World)
    (hconf : readConfigList sys confDir = .ok configs)
    (hok : ∀ c ∈ configs, (findTargets (envOf sys w.files) c now).toBool = true) :
    (run sys confDir now w).2 = none ∧
    (∀ (v : World) (targets : List GoString),
      (removeTargets sys v targets).removeCalls = v.removeCalls ++ targets) ∧
    (∀ c ∈ configs, ∀ t ∈ targetsOf sys w.files now c,
      t ∈ (run sys confDir now w).1.removeCalls) ∧
    (run sys confDir now w).1.files = w.files.filter
      (fun f => !(sys.removable f.1 && selected sys w.files now configs f.1)) := by
  have hw : w.files = w.files.filter (fun f => !(fun _ : GoString => false) f.1) := by simp
  obtain ⟨h1, h2, _, h4⟩ := sweep_spec sys now w.files configs hok w (fun _ => false) hw
  rw [run_eq_sweep sys confDir now w configs hconf]
  refine ⟨h1, removeTargets_calls sys, fun c hc t ht => h4 c hc t ht rfl, ?_⟩
  rw [h2]
  apply List.filter_congr
  intro f _
  simp

/-- Witness of C14: the sweep of `TestRun` when the removal of `log1/c.3` fails: the failure
is logged, the later targets `log1/c.4`, `log1/c.5`, `log1/c.10` and those of the two later
configurations are removed all the same, and `log1/c.3` is left. -/
theorem run_attempts_every_target_witness :
    readConfigList (sampleSystem fun p => p != "log1/c.3".toList) "conf".toList
      = .ok sampleConfigs ∧
    (∀ c ∈ sampleConfigs,
      (findTargets (envOf (sampleSystem fun p => p != "log1/c.3".toList) sampleWorld.files) c
        (clock 1 16 0 0)).toBool = true) ∧
    (run (sampleSystem fun p => p != "log1/c.3".toList) "conf".toList (clock 1 16 0 0)
      sampleWorld).2 = none ∧
    (run (sampleSystem fun p => p != "log1/c.3".toList) "conf".toList (clock 1 16 0 0)
      sampleWorld).1.logged = ["Failed to remove a file:log1/c.3".toList] ∧
    (run (sampleSystem fun p => p != "log1/c.3".toList) "conf".toList (clock 1 16 0 0)
      sampleWorld).1.removeCalls.length = 14 ∧
    (run (sampleSystem fun p => p != "log1/c.3".toList) "conf".toList (clock 1 16 0 0)
      sampleWorld).1.files
      = sampleSurvivors.take 3 ++ [("log1/c.3".toList, clock 1 10 3 50)]
        ++ sampleSurvivors.drop 3 :=
  ⟨by decide, by decide,
    (run_attempts_every_target (sampleSystem fun p => p != "log1/c.3".toList) "conf".toList
      (clock 1 16 0 0) sampleConfigs sampleWorld (by decide) (by decide)).1,
    by decide, by decide, by decide⟩

end Unlinker
